import Mathlib

/-!
Verification development for the claricredit-ai credit-memo generator.

The Python sources are shallowly embedded: pure logic is translated into
executable Lean definitions; calls to external collaborators (the LLM chat
endpoint, the embedding endpoint, the Chroma vector store, the `tiktoken`
tokenizer and the `re` regex engine) are passed in as explicit data or
function parameters; fallible Python code is modelled with `Except`.
-/

/-- Model of a raised Python exception. -/
inductive PyErr where
  | typeError
  | exception (msg : String)
deriving DecidableEq, Repr

/-- Result of evaluating `future.result()` for a submitted task: either the
returned answer string or the exception the task raised. -/
inductive TaskOutcome where
  | ok (answer : String)
  | raised (err : PyErr)
deriving DecidableEq, Repr

/-- Python `str.strip()` (whitespace trimming on both ends). -/
def pyStrip (s : String) : String :=
  String.mk (((s.data.dropWhile Char.isWhitespace).reverse.dropWhile
    Char.isWhitespace).reverse)

/-- Python `sep.join(l)`. -/
def pyJoin (sep : String) : List String → String
  | [] => ""
  | [a] => a
  | a :: b :: rest => a ++ sep ++ pyJoin sep (b :: rest)

/-- Python `filter(None, answers)` over a list of `None`-or-string values:
keeps exactly the truthy elements, i.e. drops `None` and the empty string,
preserving order. -/
def pyFilterNone (l : List (Option String)) : List String :=
  l.filterMap fun o =>
    match o with
    | none => none
    | some s => if s = "" then none else some s

/-- Python `list(OrderedDict.fromkeys(l))`: removes exact duplicates keeping
the first occurrence of each element, preserving first-seen order. -/
def pyDedup : List String → List String
  | [] => []
  | a :: l => a :: pyDedup (l.filter (fun x => x ≠ a))
termination_by l => l.length
decreasing_by
  simp only [List.length_cons]
  exact Nat.lt_succ_of_le (List.length_filter_le _ _)

/-- Python list indexing `l[i]` with an `int` index: negative indices count
from the end; out-of-range indices raise `IndexError`. -/
def pyIndex {α : Type} (l : List α) (i : Int) : Except PyErr α :=
  let j : Int := if i < 0 then i + l.length else i
  if h : 0 ≤ j ∧ j.toNat < l.length then .ok (l.get ⟨j.toNat, h.2⟩)
  else .error (.exception "IndexError")

/-- Python call semantics for a bound method whose `def` declares `required`
positional parameters (after `self`) and no defaults: a call supplying
`given` arguments runs the body only when the counts match, and raises
`TypeError` otherwise. -/
def pyCall (required given : Nat) (body : TaskOutcome) : TaskOutcome :=
  if given = required then body else .raised .typeError

section Orchestration

/-!
Model of the orchestration engine `run_rag_tasks_in_parallel`
(src/app.py lines 47-122; src/resources/pipeline.py lines 17-90 is the
same logic).  A "completion order" of the independent phase is a list of
events, each pairing a submitted task with the outcome its `future.result()`
call produced; `concurrent.futures.as_completed` yields these in an
arbitrary order, which the list order represents.
-/

/-- Semantic sub-query of a task group (`semantic_queries` entries in
src/resources/retrieval_queries/sections.py). -/
structure SemQuery where
  query : String
  k : Nat
  filter : Option String
deriving DecidableEq, Repr

/-- One task group of `CREDIT_MEMO_SECTIONS`: a Python dict with optional
boolean keys; `group.get "include_for_summary"` etc. are modelled as
Booleans that are `false` when the key is absent. -/
structure TaskGroup where
  user_query : String
  semantic_queries : List SemQuery
  full_page : Bool
  fin_data_needed : Bool
  include_for_summary : Bool
  include_for_recommendation : Bool
deriving DecidableEq, Repr

/-- A submitted task `(section, group)` from `parallel_tasks`. -/
structure RagTask where
  sec : String
  group : TaskGroup
deriving DecidableEq, Repr

/-- A completed independent task together with the outcome of
`future.result()`. -/
structure Event where
  task : RagTask
  outcome : TaskOutcome
deriving DecidableEq, Repr

/-- The static section taxonomy, as an association list (Python dict with
unique keys); `CREDIT_MEMO_SECTIONS[s]` lookup. -/
def sectionGroups (sections : List (String × List TaskGroup)) (s : String) :
    Option (List TaskGroup) :=
  (sections.find? (fun p => p.1 = s)).map Prod.snd

/-- Mutable state of one orchestration run: the `results` dict (modelled as
a total function that is `[]` outside the populated keys), plus the shared
`summary_context` and `recommendation_context` lists. -/
structure OrchState where
  results : String → List (Option String)
  summary_context : List String
  recommendation_context : List String

/-- Slot write of app.py lines 62-64: `while len(results[section]) <=
original_index: results[section].append(None)` followed by
`results[section][original_index] = answer`. -/
def padSet (l : List (Option String)) (i : Nat) (a : String) :
    List (Option String) :=
  (l ++ List.replicate (i + 1 - l.length) none).set i (some a)

/-- Body of the `as_completed` loop for one completed independent task
(app.py lines 56-74): a raised exception is logged and swallowed; otherwise
the answer is written into the group's original slot of its section and
appended to the flagged shared context lists.  A `KeyError` (unknown
section) or `ValueError` (group not in its section's list) from the body is
caught by the same `except Exception` handler, leaving the state unchanged. -/
def processIndependentEvent (sections : List (String × List TaskGroup))
    (st : OrchState) (e : Event) : OrchState :=
  match e.outcome with
  | .raised _ => st
  | .ok answer =>
    match sectionGroups sections e.task.sec with
    | none => st
    | some groups =>
      if e.task.group ∈ groups then
        let idx := groups.indexOf e.task.group
        let st1 : OrchState :=
          { st with results := fun s =>
              if s = e.task.sec then padSet (st.results e.task.sec) idx answer
              else st.results s }
        let st2 : OrchState :=
          if e.task.group.include_for_summary then
            { st1 with summary_context := st1.summary_context ++ [answer] }
          else st1
        if e.task.group.include_for_recommendation then
          { st2 with recommendation_context :=
              st2.recommendation_context ++ [answer] }
        else st2
      else st

/-- Initial orchestration state: `results = {section: [] for section in
CREDIT_MEMO_SECTIONS}` and empty context lists. -/
def initState : OrchState :=
  { results := fun _ => [], summary_context := [], recommendation_context := [] }

/-- Independent phase of `run_rag_tasks_in_parallel`: fold the completion
events in completion order. -/
def runIndependentPhase (sections : List (String × List TaskGroup))
    (events : List Event) : OrchState :=
  events.foldl (processIndependentEvent sections) initState

/-- Boilerplate financial-summary block inserted at the front of
`summary_context` before the dependent phase (app.py lines 80-106). -/
def summaryBoilerplate : String :=
  "Loan Request and Proposed Structure ... Sources and Uses of Funds ... " ++
  "Proposed Term Loan: RM 7,500,000 ... Collateral Analysis ... " ++
  "Calculated Loan-to-Value (LTV) Ratio: ~65%"

/-- Handling of one completed dependent task (app.py lines 114-121): on
success the answer is appended to its section's result list; a raised
exception is logged and swallowed. -/
def processDependentEvent (st : OrchState) (t : RagTask) (o : TaskOutcome) :
    OrchState :=
  match o with
  | .raised _ => st
  | .ok answer =>
    { st with results := fun s =>
        if s = t.sec then st.results t.sec ++ [some answer]
        else st.results s }

/-- Dependent phase of `run_rag_tasks_in_parallel` (app.py lines 76-121):
insert the boilerplate into the summary context when a summary group
exists, then run the summary and recommendation tasks, whose
`generate_answer` outcomes are supplied as data. -/
def runDependentPhase (st : OrchState) (summaryGroup recGroup : Option RagTask)
    (summaryOutcome recOutcome : TaskOutcome) : OrchState :=
  let st1 :=
    match summaryGroup with
    | some _ => { st with summary_context := summaryBoilerplate :: st.summary_context }
    | none => st
  let st2 :=
    match summaryGroup with
    | some t => processDependentEvent st1 t summaryOutcome
    | none => st1
  match recGroup with
  | some t => processDependentEvent st2 t recOutcome
  | none => st2

/-- Full `run_rag_tasks_in_parallel` (app.py lines 47-122): independent
phase over the given completion order, then the dependent phase. -/
def run_rag_tasks_in_parallel (sections : List (String × List TaskGroup))
    (events : List Event) (summaryGroup recGroup : Option RagTask)
    (summaryOutcome recOutcome : TaskOutcome) : OrchState :=
  runDependentPhase (runIndependentPhase sections events)
    summaryGroup recGroup summaryOutcome recOutcome

/-- Number of positional parameters (after `self`) of
`RAGPipelineCosine.run` — rag.py line 102: `def run(self, group,
split_page_file, financial_data)`. -/
def run_param_count : Nat := 3

/-- Number of arguments supplied at the submission sites of `rag.run` —
app.py line 54 and pipeline.py line 24: `executor.submit(rag.run, task[1],
split_page_file)`. -/
def run_call_arg_count : Nat := 2

/-- Number of positional parameters (after `self`) of
`RAGPipelineCosine.generate_answer` — rag.py line 93: `def
generate_answer(self, query, context_docs, fin_data)`. -/
def generate_answer_param_count : Nat := 3

/-- Number of arguments supplied at the submission sites of
`rag.generate_answer` — app.py lines 107-112 and pipeline.py lines 77-80:
`executor.submit(rag.generate_answer, <user_query>, <context>)`. -/
def generate_answer_call_arg_count : Nat := 2

/-- Outcome of one independent task as actually submitted by the
orchestrators: `rag.run` invoked with two arguments; `body` is whatever the
three-argument body would have produced had the call bound. -/
def submittedRunOutcome (body : TaskOutcome) : TaskOutcome :=
  pyCall run_param_count run_call_arg_count body

/-- Outcome of one dependent task as actually submitted by the
orchestrators: `rag.generate_answer` invoked with two arguments. -/
def submittedGenerateAnswerOutcome (body : TaskOutcome) : TaskOutcome :=
  pyCall generate_answer_param_count generate_answer_call_arg_count body

/-- Results component of one independent completion step, in isolation:
the slot write of app.py lines 61-64 (the context appends touch only the
context lists). -/
def resultsStep (sections : List (String × List TaskGroup))
    (r : String → List (Option String)) (e : Event) :
    String → List (Option String) :=
  match e.outcome with
  | .raised _ => r
  | .ok answer =>
    match sectionGroups sections e.task.sec with
    | none => r
    | some groups =>
      if e.task.group ∈ groups then
        fun s =>
          if s = e.task.sec then
            padSet (r e.task.sec) (groups.indexOf e.task.group) answer
          else r s
      else r

/-- Slot `(section, original_index)` an event would write, when its task
completed successfully and its group is locatable in the taxonomy. -/
def eventSlot (sections : List (String × List TaskGroup)) (e : Event) :
    Option (String × Nat) :=
  match e.outcome with
  | .raised _ => none
  | .ok _ =>
    match sectionGroups sections e.task.sec with
    | none => none
    | some groups =>
      if e.task.group ∈ groups then
        some (e.task.sec, groups.indexOf e.task.group)
      else none

end Orchestration

section OrchestrationLemmas

theorem padSet_length (l : List (Option String)) (i : Nat) (a : String) :
    (padSet l i a).length = max l.length (i + 1) := by
  simp [padSet]; omega

theorem padSet_getElem? (l : List (Option String)) (i : Nat) (a : String)
    (k : Nat) :
    (padSet l i a)[k]? =
      if k = i then some (some a)
      else if k < l.length then l[k]?
      else if k < max l.length (i + 1) then some none else none := by
  unfold padSet
  rw [List.getElem?_set]
  by_cases hik : i = k
  · subst hik
    have h1 : i < l.length + (i + 1 - l.length) := by omega
    simp [h1]
  · have hki : ¬ k = i := fun h => hik h.symm
    rw [if_neg hik, if_neg hki, List.getElem?_append, List.getElem?_replicate]
    by_cases hk : k < l.length
    · simp [hk]
    · rw [if_neg hk, if_neg hk]
      by_cases h2 : k - l.length < i + 1 - l.length
      · rw [if_pos h2, if_pos (by omega)]
      · rw [if_neg h2, if_neg (by omega)]

theorem padSet_comm (l : List (Option String)) {i j : Nat} (h : i ≠ j)
    (a b : String) :
    padSet (padSet l i a) j b = padSet (padSet l j b) i a := by
  apply List.ext_getElem?
  intro k
  rw [padSet_getElem?, padSet_getElem?, padSet_getElem?, padSet_getElem?,
    padSet_length, padSet_length]
  by_cases hki : k = i <;> by_cases hkj : k = j <;>
    simp only [hki, hkj, if_pos, if_neg, h, Ne.symm h, reduceIte] <;>
    split_ifs <;> first | rfl | omega

theorem processIndependentEvent_results
    (sections : List (String × List TaskGroup)) (st : OrchState) (e : Event) :
    (processIndependentEvent sections st e).results =
      resultsStep sections st.results e := by
  unfold processIndependentEvent resultsStep
  rcases e with ⟨⟨sec, g⟩, (a | err)⟩
  · dsimp only
    cases hg : sectionGroups sections sec with
    | none => rfl
    | some groups =>
      dsimp only
      by_cases hmem : g ∈ groups
      · rw [if_pos hmem, if_pos hmem]
        by_cases h1 : g.include_for_summary <;>
          by_cases h2 : g.include_for_recommendation <;> simp [h1, h2]
      · rw [if_neg hmem, if_neg hmem]
  · rfl

theorem runIndependentPhase_results
    (sections : List (String × List TaskGroup)) (events : List Event) :
    (runIndependentPhase sections events).results =
      events.foldl (resultsStep sections) (fun _ => []) := by
  have key : ∀ (st : OrchState),
      (events.foldl (processIndependentEvent sections) st).results =
        events.foldl (resultsStep sections) st.results := by
    induction events with
    | nil => intro st; rfl
    | cons e es ih =>
      intro st
      rw [List.foldl_cons, List.foldl_cons, ih, processIndependentEvent_results]
  exact key initState

theorem resultsStep_of_slot_none (sections : List (String × List TaskGroup))
    (r : String → List (Option String)) (e : Event)
    (h : eventSlot sections e = none) :
    resultsStep sections r e = r := by
  unfold resultsStep
  unfold eventSlot at h
  rcases e with ⟨⟨sec, g⟩, (a | err)⟩
  · dsimp only at h ⊢
    cases hg : sectionGroups sections sec with
    | none => rfl
    | some groups =>
      rw [hg] at h
      dsimp only at h ⊢
      by_cases hmem : g ∈ groups
      · rw [if_pos hmem] at h; exact absurd h (by simp)
      · rw [if_neg hmem]
  · rfl

theorem resultsStep_of_slot_some (sections : List (String × List TaskGroup))
    (r : String → List (Option String)) (e : Event) (s₀ : String) (i₀ : Nat)
    (h : eventSlot sections e = some (s₀, i₀)) :
    ∃ a, e.outcome = .ok a ∧
      resultsStep sections r e =
        fun s => if s = s₀ then padSet (r s₀) i₀ a else r s := by
  unfold resultsStep
  unfold eventSlot at h
  rcases e with ⟨⟨sec, g⟩, (a | err)⟩
  · dsimp only at h ⊢
    cases hg : sectionGroups sections sec with
    | none => rw [hg] at h; exact absurd h (by simp)
    | some groups =>
      rw [hg] at h
      dsimp only at h ⊢
      by_cases hmem : g ∈ groups
      · rw [if_pos hmem] at h
        rw [if_pos hmem]
        obtain ⟨h1, h2⟩ : sec = s₀ ∧ groups.indexOf g = i₀ := by
          simpa using h
        subst h1; subst h2
        exact ⟨a, rfl, by funext s; by_cases hs : s = sec <;> simp [hs]⟩
      · rw [if_neg hmem] at h; exact absurd h (by simp)
  · exact absurd h (by simp)

/-- Two events whose tasks differ cannot target the same slot, as long as
each section's group list is duplicate-free. -/
theorem eventSlot_injective (sections : List (String × List TaskGroup))
    (x y : Event) (sl : String × Nat)
    (hx : eventSlot sections x = some sl) (hy : eventSlot sections y = some sl) :
    x.task = y.task := by
  rcases x with ⟨⟨sx, gx⟩, (ax | exc)⟩
  · rcases y with ⟨⟨sy, gy⟩, (ay | eyc)⟩
    · simp only [eventSlot] at hx hy
      dsimp only at hx hy ⊢
      cases hgx : sectionGroups sections sx with
      | none => rw [hgx] at hx; exact absurd hx (by simp)
      | some groupsx =>
        cases hgy : sectionGroups sections sy with
        | none => rw [hgy] at hy; exact absurd hy (by simp)
        | some groupsy =>
          rw [hgx] at hx; rw [hgy] at hy
          dsimp only at hx hy
          by_cases hmx : gx ∈ groupsx
          · by_cases hmy : gy ∈ groupsy
            · rw [if_pos hmx] at hx; rw [if_pos hmy] at hy
              obtain ⟨hx1, hx2⟩ : sx = sl.1 ∧ groupsx.indexOf gx = sl.2 := by
                simpa [Prod.ext_iff] using hx
              obtain ⟨hy1, hy2⟩ : sy = sl.1 ∧ groupsy.indexOf gy = sl.2 := by
                simpa [Prod.ext_iff] using hy
              have hss : sx = sy := by rw [hx1, hy1]
              subst hss
              have hgg : groupsx = groupsy := by
                rw [hgx] at hgy; exact Option.some.inj hgy
              subst hgg
              have hidx : groupsx.indexOf gx = groupsx.indexOf gy := by
                rw [hx2, hy2]
              have : gx = gy := (List.indexOf_inj hmx hmy).mp hidx
              rw [this]
            · rw [if_neg hmy] at hy; exact absurd hy (by simp)
          · rw [if_neg hmx] at hx; exact absurd hx (by simp)
    · simp [eventSlot] at hy
  · simp [eventSlot] at hx

theorem resultsStep_comm (sections : List (String × List TaskGroup))
    (x y : Event) (hxy : x.task ≠ y.task) (r : String → List (Option String)) :
    resultsStep sections (resultsStep sections r x) y =
      resultsStep sections (resultsStep sections r y) x := by
  cases hsx : eventSlot sections x with
  | none =>
    rw [resultsStep_of_slot_none sections r x hsx,
      resultsStep_of_slot_none sections (resultsStep sections r y) x hsx]
  | some slx =>
    cases hsy : eventSlot sections y with
    | none =>
      rw [resultsStep_of_slot_none sections (resultsStep sections r x) y hsy,
        resultsStep_of_slot_none sections r y hsy]
    | some sly =>
      obtain ⟨ax, _hox, hfx⟩ := resultsStep_of_slot_some sections r x slx.1 slx.2 (by simpa using hsx)
      obtain ⟨ay, _hoy, hfy⟩ := resultsStep_of_slot_some sections r y sly.1 sly.2 (by simpa using hsy)
      obtain ⟨ax', _hox', hfx'⟩ := resultsStep_of_slot_some sections
        (resultsStep sections r y) x slx.1 slx.2 (by simpa using hsx)
      obtain ⟨ay', _hoy', hfy'⟩ := resultsStep_of_slot_some sections
        (resultsStep sections r x) y sly.1 sly.2 (by simpa using hsy)
      have hax : ax' = ax := by
        have h := _hox.symm.trans _hox'
        injection h with h2
        exact h2.symm
      have hay : ay' = ay := by
        have h := _hoy.symm.trans _hoy'
        injection h with h2
        exact h2.symm
      rw [hax] at hfx'
      rw [hay] at hfy'
      have hsl : slx ≠ sly := by
        intro hcon
        exact hxy (eventSlot_injective sections x y sly
          (by rw [hsx, hcon]) hsy)
      rw [hfy', hfx, hfx', hfy]
      funext s
      by_cases h1 : s = slx.1 <;> by_cases h2 : s = sly.1 <;> simp only [h1, h2, reduceIte]
      · have hii : slx.2 ≠ sly.2 := by
          intro hcon
          apply hsl
          have : slx.1 = sly.1 := by rw [← h1, h2]
          exact Prod.ext this hcon
        have e1 : sly.1 = slx.1 := by rw [← h1, h2]
        rw [e1]
        simp only [reduceIte]
        exact padSet_comm (r slx.1) hii ax ay
      · have e1 : ¬ slx.1 = sly.1 := by
          intro hcon; exact h2 (by rw [h1, hcon])
        simp [e1]
      · have e1 : ¬ sly.1 = slx.1 := by
          intro hcon; exact h1 (by rw [h2, hcon])
        simp [e1]

theorem resultsStep_length_mono (sections : List (String × List TaskGroup))
    (r : String → List (Option String)) (e : Event) (s₀ : String) :
    (r s₀).length ≤ ((resultsStep sections r e) s₀).length := by
  cases hsl : eventSlot sections e with
  | none => rw [resultsStep_of_slot_none sections r e hsl]
  | some sl =>
    obtain ⟨a, _ho, hf⟩ := resultsStep_of_slot_some sections r e sl.1 sl.2
      (by simpa using hsl)
    rw [hf]
    by_cases hs : s₀ = sl.1
    · subst hs
      simp only [reduceIte, padSet_length]
      omega
    · simp [hs]

theorem resultsStep_preserves_slot (sections : List (String × List TaskGroup))
    (r : String → List (Option String)) (e : Event) (s₀ : String) (i₀ : Nat)
    (hne : eventSlot sections e ≠ some (s₀, i₀))
    (hlt : i₀ < (r s₀).length) :
    ((resultsStep sections r e) s₀)[i₀]? = (r s₀)[i₀]? := by
  cases hsl : eventSlot sections e with
  | none => rw [resultsStep_of_slot_none sections r e hsl]
  | some sl =>
    obtain ⟨a, _ho, hf⟩ := resultsStep_of_slot_some sections r e sl.1 sl.2
      (by simpa using hsl)
    rw [hf]
    by_cases hs : s₀ = sl.1
    · subst hs
      simp only [reduceIte]
      have hii : ¬ i₀ = sl.2 := by
        intro hcon
        apply hne
        rw [hsl, hcon]
      rw [padSet_getElem?, if_neg hii, if_pos hlt]
    · simp [hs]

theorem foldl_resultsStep_preserves_slot
    (sections : List (String × List TaskGroup)) (evs : List Event)
    (r : String → List (Option String)) (s₀ : String) (i₀ : Nat)
    (hne : ∀ e ∈ evs, eventSlot sections e ≠ some (s₀, i₀))
    (hlt : i₀ < (r s₀).length) :
    ((evs.foldl (resultsStep sections) r) s₀)[i₀]? = (r s₀)[i₀]? := by
  induction evs generalizing r with
  | nil => rfl
  | cons e es ih =>
    rw [List.foldl_cons]
    have h1 := resultsStep_preserves_slot sections r e s₀ i₀
      (hne e (by simp)) hlt
    have h2 : i₀ < ((resultsStep sections r e) s₀).length :=
      Nat.lt_of_lt_of_le hlt (resultsStep_length_mono sections r e s₀)
    rw [ih (resultsStep sections r e) (fun x hx => hne x (by simp [hx])) h2, h1]

theorem foldl_resultsStep_slot_value
    (sections : List (String × List TaskGroup)) (pre post : List Event)
    (e : Event) (s₀ : String) (i₀ : Nat) (a : String)
    (hsl : eventSlot sections e = some (s₀, i₀))
    (hother : ∀ x ∈ post, eventSlot sections x ≠ some (s₀, i₀))
    (r : String → List (Option String)) :
    (((pre ++ e :: post).foldl (resultsStep sections) r) s₀)[i₀]? =
      some (some a) ↔ e.outcome = .ok a := by
  obtain ⟨a', ho, hf⟩ := resultsStep_of_slot_some sections
    (pre.foldl (resultsStep sections) r) e s₀ i₀ hsl
  rw [List.foldl_append, List.foldl_cons]
  have hmid : ((resultsStep sections (pre.foldl (resultsStep sections) r) e) s₀)[i₀]? =
      some (some a') := by
    rw [hf]
    simp only [reduceIte]
    rw [padSet_getElem?, if_pos rfl]
  have hlen : i₀ < ((resultsStep sections (pre.foldl (resultsStep sections) r) e) s₀).length := by
    rw [hf]
    simp only [reduceIte, padSet_length]
    omega
  rw [foldl_resultsStep_preserves_slot sections post _ s₀ i₀ hother hlen, hmid]
  constructor
  · intro hv
    have : a' = a := by
      have := Option.some.inj (Option.some.inj hv)
      exact this
    rw [ho, this]
  · intro hv
    rw [ho] at hv
    have : a' = a := by injection hv
    rw [this]

theorem eventSlot_ok (sections : List (String × List TaskGroup))
    (t : RagTask) (a : String) (gs : List TaskGroup)
    (hgs : sectionGroups sections t.sec = some gs) (hmem : t.group ∈ gs) :
    eventSlot sections ⟨t, .ok a⟩ = some (t.sec, gs.indexOf t.group) := by
  unfold eventSlot
  rcases t with ⟨sec, g⟩
  dsimp only at hgs hmem ⊢
  rw [hgs]
  dsimp only
  rw [if_pos hmem]

/-- The answer of a successfully completed task of a duplicate-free task
list ends up at its group's configuration index of its section's result
list, regardless of completion order. -/
theorem runIndependentPhase_slot_value
    (sections : List (String × List TaskGroup)) (evs : List Event)
    (htasks : (evs.map Event.task).Nodup)
    (e : Event) (he : e ∈ evs) (a : String) (ha : e.outcome = .ok a)
    (gs : List TaskGroup) (hgs : sectionGroups sections e.task.sec = some gs)
    (hmem : e.task.group ∈ gs) :
    ((runIndependentPhase sections evs).results e.task.sec)[gs.indexOf e.task.group]? =
      some (some a) := by
  obtain ⟨pre, post, hdecomp⟩ := List.append_of_mem he
  have hsl : eventSlot sections e = some (e.task.sec, gs.indexOf e.task.group) := by
    rcases e with ⟨t, o⟩
    cases ha
    exact eventSlot_ok sections t a gs hgs hmem
  have hnotmem : e.task ∉ post.map Event.task := by
    have hsub : (e.task :: post.map Event.task).Nodup := by
      have h1 : List.Sublist ((e :: post).map Event.task) (evs.map Event.task) := by
        rw [hdecomp, List.map_append]
        exact List.sublist_append_right _ _
      exact htasks.sublist h1
    exact (List.nodup_cons.mp hsub).1
  have hother : ∀ x ∈ post, eventSlot sections x ≠
      some (e.task.sec, gs.indexOf e.task.group) := by
    intro x hx hcon
    apply hnotmem
    have hxe : x.task = e.task :=
      eventSlot_injective sections x e _ hcon hsl
    rw [← hxe]
    exact List.mem_map_of_mem Event.task hx
  rw [runIndependentPhase_results, hdecomp]
  exact (foldl_resultsStep_slot_value sections pre post e e.task.sec
    (gs.indexOf e.task.group) a hsl hother _).mpr ha

theorem resultsStep_other_section (sections : List (String × List TaskGroup))
    (r : String → List (Option String)) (e : Event) (s₀ : String)
    (hne : e.task.sec ≠ s₀) :
    (resultsStep sections r e) s₀ = r s₀ := by
  cases hsl : eventSlot sections e with
  | none => rw [resultsStep_of_slot_none sections r e hsl]
  | some sl =>
    obtain ⟨a, _ho, hf⟩ := resultsStep_of_slot_some sections r e sl.1 sl.2
      (by simpa using hsl)
    have hfst : sl.1 = e.task.sec := by
      unfold eventSlot at hsl
      rcases e with ⟨⟨sec, g⟩, (a' | err)⟩
      · dsimp only at hsl ⊢
        cases hgs : sectionGroups sections sec with
        | none => rw [hgs] at hsl; exact absurd hsl (by simp)
        | some gs =>
          rw [hgs] at hsl
          dsimp only at hsl
          by_cases hm : g ∈ gs
          · rw [if_pos hm] at hsl
            have := Option.some.inj hsl
            rw [← this]
          · rw [if_neg hm] at hsl; exact absurd hsl (by simp)
      · exact absurd hsl (by simp)
    rw [hf]
    have : ¬ s₀ = sl.1 := by
      intro hcon
      exact hne (by rw [hfst] at hcon; exact hcon.symm)
    simp [this]

theorem foldl_resultsStep_other_sections
    (sections : List (String × List TaskGroup)) (evs : List Event)
    (r : String → List (Option String)) (s₀ : String)
    (hne : ∀ e ∈ evs, e.task.sec ≠ s₀) :
    (evs.foldl (resultsStep sections) r) s₀ = r s₀ := by
  induction evs generalizing r with
  | nil => rfl
  | cons e es ih =>
    rw [List.foldl_cons, ih _ (fun x hx => hne x (by simp [hx])),
      resultsStep_other_section sections r e s₀ (hne e (by simp))]

theorem resultsStep_preserves_unset
    (sections : List (String × List TaskGroup))
    (r : String → List (Option String)) (e : Event) (s₀ : String) (i₀ : Nat)
    (hne : eventSlot sections e ≠ some (s₀, i₀))
    (h : (r s₀)[i₀]? = none ∨ (r s₀)[i₀]? = some none) :
    ((resultsStep sections r e) s₀)[i₀]? = none ∨
      ((resultsStep sections r e) s₀)[i₀]? = some none := by
  cases hsl : eventSlot sections e with
  | none => rw [resultsStep_of_slot_none sections r e hsl]; exact h
  | some sl =>
    obtain ⟨a, _ho, hf⟩ := resultsStep_of_slot_some sections r e sl.1 sl.2
      (by simpa using hsl)
    rw [hf]
    by_cases hs : s₀ = sl.1
    · subst hs
      simp only [reduceIte]
      have hii : ¬ i₀ = sl.2 := by
        intro hcon
        apply hne
        rw [hsl, hcon]
      rw [padSet_getElem?, if_neg hii]
      by_cases h1 : i₀ < (r sl.1).length
      · rw [if_pos h1]; exact h
      · rw [if_neg h1]
        by_cases h2 : i₀ < max (r sl.1).length (sl.2 + 1)
        · rw [if_pos h2]; right; rfl
        · rw [if_neg h2]; left; rfl
    · simp only [hs, reduceIte]
      exact h

theorem foldl_resultsStep_preserves_unset
    (sections : List (String × List TaskGroup)) (evs : List Event)
    (r : String → List (Option String)) (s₀ : String) (i₀ : Nat)
    (hne : ∀ e ∈ evs, eventSlot sections e ≠ some (s₀, i₀))
    (h : (r s₀)[i₀]? = none ∨ (r s₀)[i₀]? = some none) :
    ((evs.foldl (resultsStep sections) r) s₀)[i₀]? = none ∨
      ((evs.foldl (resultsStep sections) r) s₀)[i₀]? = some none := by
  induction evs generalizing r with
  | nil => exact h
  | cons e es ih =>
    rw [List.foldl_cons]
    exact ih _ (fun x hx => hne x (by simp [hx]))
      (resultsStep_preserves_unset sections r e s₀ i₀ (hne e (by simp)) h)

theorem processDependentEvent_results_other (st : OrchState) (t : RagTask)
    (o : TaskOutcome) (s₀ : String) (hne : t.sec ≠ s₀) :
    (processDependentEvent st t o).results s₀ = st.results s₀ := by
  unfold processDependentEvent
  cases o with
  | raised e => rfl
  | ok a =>
    dsimp only
    rw [if_neg (fun hcon => hne hcon.symm)]

theorem processDependentEvent_getElem (st : OrchState) (t : RagTask)
    (o : TaskOutcome) (s₀ : String) (i₀ : Nat) (v : Option String)
    (h : (st.results s₀)[i₀]? = some v) :
    ((processDependentEvent st t o).results s₀)[i₀]? = some v := by
  unfold processDependentEvent
  cases o with
  | raised e => exact h
  | ok a =>
    dsimp only
    by_cases hs : s₀ = t.sec
    · subst hs
      rw [if_pos rfl]
      obtain ⟨hlt, -⟩ := List.getElem?_eq_some_iff.mp h
      rw [List.getElem?_append_left hlt]
      exact h
    · rw [if_neg hs]
      exact h

theorem processDependentEvent_all_some (st : OrchState) (t : RagTask)
    (o : TaskOutcome) (s₀ : String)
    (h : ∀ x ∈ st.results s₀, x ≠ none) :
    ∀ x ∈ (processDependentEvent st t o).results s₀, x ≠ none := by
  unfold processDependentEvent
  cases o with
  | raised e => exact h
  | ok a =>
    dsimp only
    by_cases hs : s₀ = t.sec
    · subst hs
      rw [if_pos rfl]
      intro x hx
      rcases List.mem_append.mp hx with h1 | h2
      · exact h x h1
      · rw [List.mem_singleton.mp h2]
        simp
    · rw [if_neg hs]
      exact h

end OrchestrationLemmas

/-- C1: for every taxonomy and every completion order of distinct
independent tasks, the engine stores the answer produced for the group at
configuration position `i` of its section at index `i` of that section's
result list, and the final per-section result lists are invariant under
permuting the completion order. -/
theorem independent_results_order_invariant
    (sections : List (String × List TaskGroup)) (evs1 evs2 : List Event)
    (hperm : evs1.Perm evs2)
    (htasks : (evs1.map Event.task).Nodup) :
    (∀ e ∈ evs1, ∀ a, e.outcome = .ok a → ∀ gs,
        sectionGroups sections e.task.sec = some gs → e.task.group ∈ gs →
        ((runIndependentPhase sections evs1).results e.task.sec)[gs.indexOf e.task.group]? =
          some (some a))
    ∧ (runIndependentPhase sections evs1).results =
        (runIndependentPhase sections evs2).results := by
  constructor
  · intro e he a ha gs hgs hmem
    exact runIndependentPhase_slot_value sections evs1 htasks e he a ha gs hgs hmem
  · rw [runIndependentPhase_results, runIndependentPhase_results]
    refine hperm.foldl_eq' ?_ _
    intro x hx y hy z
    by_cases hxy : x = y
    · subst hxy; rfl
    · have htne : x.task ≠ y.task := by
        intro hcon
        exact hxy (List.inj_on_of_nodup_map htasks hx hy hcon)
      exact resultsStep_comm sections x y htne z

/-- Witness for C1: two groups in one section completing in opposite
orders produce the same per-section result lists, with each answer stored
at its group's configuration index. -/
theorem independent_results_order_invariant_witness :
    (runIndependentPhase
        [("Financial Analysis", [⟨"q1", [], true, false, true, false⟩,
                                 ⟨"q2", [], false, false, false, true⟩])]
        [⟨⟨"Financial Analysis", ⟨"q1", [], true, false, true, false⟩⟩, .ok "ans1"⟩,
         ⟨⟨"Financial Analysis", ⟨"q2", [], false, false, false, true⟩⟩, .ok "ans2"⟩]).results =
      (runIndependentPhase
        [("Financial Analysis", [⟨"q1", [], true, false, true, false⟩,
                                 ⟨"q2", [], false, false, false, true⟩])]
        [⟨⟨"Financial Analysis", ⟨"q2", [], false, false, false, true⟩⟩, .ok "ans2"⟩,
         ⟨⟨"Financial Analysis", ⟨"q1", [], true, false, true, false⟩⟩, .ok "ans1"⟩]).results :=
  (independent_results_order_invariant _ _ _
    (List.Perm.swap _ _ _) (by decide)).2

section Assembly

/-- SECTION_ORDER from src/resources/retrieval_queries/sections.py. -/
def SECTION_ORDER : List String :=
  ["Executive Summary",
   "Background, Management, and Ownership",
   "Financial Analysis",
   "Collateral and Security",
   "Risk Assessment",
   "Loan Structure and Terms",
   "Recommendation and Conclusion"]

/-- Keys of `CREDIT_MEMO_SECTIONS` in insertion order
(src/resources/retrieval_queries/sections.py). -/
def CREDIT_MEMO_SECTION_KEYS : List String :=
  ["Background, Management, and Ownership",
   "Financial Analysis",
   "Collateral and Security",
   "Risk Assessment",
   "Loan Structure and Terms",
   "Recommendation and Conclusion",
   "Executive Summary"]

/-- Python `str.splitlines()` restricted to newline separators: no entry
for a trailing newline, and the empty string yields no lines. -/
def pySplitlines (s : String) : List String :=
  if s = "" then []
  else
    let parts := s.splitOn "\n"
    if parts.getLast? = some "" then parts.dropLast else parts

/-- Python `str.title()` for ASCII text: uppercase the first letter of
every alphabetic run, lowercase the rest. -/
def pyTitleAux : List Char → Bool → List Char
  | [], _ => []
  | c :: cs, prevAlpha =>
    if c.isAlpha then
      (if prevAlpha then c.toLower else c.toUpper) :: pyTitleAux cs true
    else c :: pyTitleAux cs false

/-- Python `str.title()`. -/
def pyTitle (s : String) : String := String.mk (pyTitleAux s.data false)

/-- Python substring test `pat in s`. -/
def pyInStr (pat s : String) : Bool := decide (List.IsInfix pat.data s.data)

/-- Cleaning of one Executive-Summary answer (app.py lines 256-261): drop
the first line when its lowercase form contains "executive summary", then
re-join and strip. -/
def cleanExecAnswer (ans : String) : String :=
  let lines := pySplitlines ans
  let lines1 :=
    if lines ≠ [] ∧ pyInStr "executive summary" (lines.headD "").toLower then
      lines.drop 1
    else lines
  pyStrip (pyJoin "\n" lines1)

/-- Executive-Summary cleaning loop (app.py lines 254-263): iterates the
original answer list; a `None` entry would raise `AttributeError` on
`.splitlines()`, aborting the whole report write. -/
def cleanAnswers (answers : List (Option String)) :
    Except PyErr (List (Option String)) :=
  answers.mapM fun o =>
    match o with
    | none => .error (.exception "AttributeError")
    | some ans => .ok (some (cleanExecAnswer ans))

/-- Python `str.replace` for a single-character pattern (the call site
only replaces underscores by spaces). -/
def pyReplaceChar (s : String) (pat rep : Char) : String :=
  String.mk (s.data.map (fun c => if c = pat then rep else c))

/-- Heading written for a section: `f"## {section.replace('_',' ').title()}\n\n"`
(app.py line 264). -/
def sectionHeading (sec : String) : String :=
  "## " ++ pyTitle (pyReplaceChar sec '_' ' ') ++ "\n\n"

/-- Body written for a section: `"\n\n".join(filter(None, answers)) + "\n\n"`
(app.py line 265). -/
def sectionBody (answers : List (Option String)) : String :=
  pyJoin "\n\n" (pyFilterNone answers) ++ "\n\n"

/-- Strings written for one section by `generate_credit_memo` (app.py
lines 244-265): a section missing from `results` is skipped with a debug
log; any present section gets a heading and a body; a non-empty
Executive-Summary answer list is cleaned first.  Note the two `f.write`
calls sit outside the `if answers:` guard. -/
def sectionWrites (resultKeys : List String)
    (results : String → List (Option String)) (sec : String) :
    Except PyErr (List String) :=
  if sec ∈ resultKeys then
    (if results sec ≠ [] ∧ sec = "Executive Summary" then
        cleanAnswers (results sec)
      else .ok (results sec)).map
      (fun answers => [sectionHeading sec, sectionBody answers])
  else .ok []

/-- All strings written to the report file by `generate_credit_memo`, in
order (app.py lines 243-265); an exception inside the loop aborts the
whole write. -/
def generate_credit_memo_writes (resultKeys : List String)
    (results : String → List (Option String)) : Except PyErr (List String) :=
  (SECTION_ORDER.mapM (sectionWrites resultKeys results)).map List.flatten

/-- Strings written for one section by the `main` assembly of
src/resources/pipeline.py (lines 143-147): a section whose answer list is
empty (falsy) is skipped entirely; no Executive-Summary cleaning. -/
def pipelineMainSectionWrites (results : String → List (Option String))
    (sec : String) : List String :=
  if results sec ≠ [] then [sectionHeading sec, sectionBody (results sec)]
  else []

/-- All strings written by the `main` assembly of src/resources/pipeline.py
(lines 141-147), iterating the `CREDIT_MEMO_SECTIONS` keys in order. -/
def pipeline_main_writes (results : String → List (Option String)) :
    List String :=
  (CREDIT_MEMO_SECTION_KEYS.map (pipelineMainSectionWrites results)).flatten

end Assembly

section AssemblyLemmas

theorem pyFilterNone_nil_of_all_none (l : List (Option String))
    (h : ∀ o ∈ l, o = none) : pyFilterNone l = [] := by
  induction l with
  | nil => rfl
  | cons o rest ih =>
    have ho : o = none := h o (by simp)
    subst ho
    simp only [pyFilterNone, List.filterMap_cons]
    exact ih (fun x hx => h x (by simp [hx]))

theorem mem_pyFilterNone (l : List (Option String)) (a : String)
    (hmem : some a ∈ l) (hne : a ≠ "") : a ∈ pyFilterNone l := by
  unfold pyFilterNone
  rw [List.mem_filterMap]
  exact ⟨some a, hmem, by simp [hne]⟩

theorem substring_of_mem_pyJoin (sep : String) (l : List String) (a : String)
    (h : a ∈ l) : List.IsInfix a.data (pyJoin sep l).data := by
  induction l with
  | nil => simp at h
  | cons b rest ih =>
    rcases List.mem_cons.mp h with rfl | htail
    · cases rest with
      | nil => exact List.infix_rfl
      | cons c cs =>
        show List.IsInfix a.data (a ++ sep ++ pyJoin sep (c :: cs)).data
        rw [String.data_append _ _, String.data_append _ _]
        exact ((List.prefix_append a.data sep.data).isInfix).trans
          (List.prefix_append _ _).isInfix
    · cases rest with
      | nil => simp at htail
      | cons c cs =>
        have hrec := ih htail
        show List.IsInfix a.data (b ++ sep ++ pyJoin sep (c :: cs)).data
        rw [String.data_append _ _]
        exact hrec.trans (List.suffix_append _ _).isInfix

theorem mapM_ok_of_forall {α β : Type} (L : List α) (f : α → Except PyErr β)
    (g : α → β) (h : ∀ x ∈ L, f x = .ok (g x)) : L.mapM f = .ok (L.map g) := by
  induction L with
  | nil => rfl
  | cons a l ih =>
    rw [List.mapM_cons, h a (by simp), ih (fun x hx => h x (by simp [hx]))]
    rfl

theorem cleanAnswers_ok_of_all_some (l : List (Option String))
    (h : ∀ o ∈ l, o ≠ none) : ∃ l', cleanAnswers l = .ok l' := by
  induction l with
  | nil => exact ⟨[], rfl⟩
  | cons o rest ih =>
    obtain ⟨l', hl'⟩ := ih (fun x hx => h x (by simp [hx]))
    cases o with
    | none => exact absurd rfl (h none (by simp))
    | some s =>
      refine ⟨some (cleanExecAnswer s) :: l', ?_⟩
      unfold cleanAnswers at hl' ⊢
      rw [List.mapM_cons, hl']
      rfl

theorem sectionWrites_of_ne_exec (resultKeys : List String)
    (results : String → List (Option String)) (sec : String)
    (hsec : sec ≠ "Executive Summary") (hin : sec ∈ resultKeys) :
    sectionWrites resultKeys results sec =
      .ok [sectionHeading sec, sectionBody (results sec)] := by
  unfold sectionWrites
  rw [if_pos hin, if_neg (fun hcon => hsec hcon.2)]
  rfl

theorem sectionWrites_ok (resultKeys : List String)
    (results : String → List (Option String)) (sec : String)
    (hallsome : ∀ o ∈ results "Executive Summary", o ≠ none) :
    ∃ v, sectionWrites resultKeys results sec = .ok v := by
  unfold sectionWrites
  by_cases hin : sec ∈ resultKeys
  · rw [if_pos hin]
    by_cases hcond : results sec ≠ [] ∧ sec = "Executive Summary"
    · rw [if_pos hcond]
      obtain ⟨l', hl'⟩ := cleanAnswers_ok_of_all_some (results sec)
        (by rw [hcond.2]; exact hallsome)
      rw [hl']
      exact ⟨_, rfl⟩
    · rw [if_neg hcond]; exact ⟨_, rfl⟩
  · rw [if_neg hin]; exact ⟨_, rfl⟩

theorem mapM_ok_exists {α β : Type} (L : List α) (f : α → Except PyErr β)
    (h : ∀ x ∈ L, ∃ y, f x = .ok y) :
    ∃ ws, L.mapM f = .ok ws ∧ ∀ x ∈ L, ∀ v, f x = .ok v → v ∈ ws := by
  induction L with
  | nil => exact ⟨[], rfl, by simp⟩
  | cons x xs ih =>
    obtain ⟨y, hy⟩ := h x (by simp)
    obtain ⟨ws, hws, hmem⟩ := ih (fun z hz => h z (by simp [hz]))
    refine ⟨y :: ws, ?_, ?_⟩
    · rw [List.mapM_cons, hy, hws]; rfl
    · intro z hz v hv
      rcases List.mem_cons.mp hz with rfl | hz2
      · rw [hy] at hv
        have : y = v := by injection hv
        rw [← this]
        exact List.mem_cons_self _ _
      · exact List.mem_cons_of_mem _ (hmem z hz2 v hv)

theorem runDependentPhase_all_some (st : OrchState)
    (sg rg : Option RagTask) (so ro : TaskOutcome) (s₀ : String)
    (h : ∀ x ∈ st.results s₀, x ≠ none) :
    ∀ x ∈ (runDependentPhase st sg rg so ro).results s₀, x ≠ none := by
  unfold runDependentPhase
  cases sg <;> cases rg <;> dsimp only <;>
    (repeat apply processDependentEvent_all_some) <;> exact h

theorem runDependentPhase_getElem (st : OrchState)
    (sg rg : Option RagTask) (so ro : TaskOutcome) (s₀ : String) (i₀ : Nat)
    (v : Option String) (h : (st.results s₀)[i₀]? = some v) :
    ((runDependentPhase st sg rg so ro).results s₀)[i₀]? = some v := by
  unfold runDependentPhase
  cases sg <;> cases rg <;> dsimp only <;>
    (repeat apply processDependentEvent_getElem) <;> exact h

theorem runDependentPhase_results_other (st : OrchState)
    (sg rg : Option RagTask) (so ro : TaskOutcome) (s₀ : String)
    (hsg : ∀ t, sg = some t → t.sec ≠ s₀)
    (hrg : ∀ t, rg = some t → t.sec ≠ s₀) :
    (runDependentPhase st sg rg so ro).results s₀ = st.results s₀ := by
  unfold runDependentPhase
  cases hs : sg with
  | none =>
    cases hr : rg with
    | none => rfl
    | some t => exact processDependentEvent_results_other st t ro s₀ (hrg t hr)
  | some t =>
    cases hr : rg with
    | none =>
      exact processDependentEvent_results_other _ t so s₀ (hsg t hs)
    | some t2 =>
      rw [processDependentEvent_results_other _ t2 ro s₀ (hrg t2 hr)]
      exact processDependentEvent_results_other _ t so s₀ (hsg t hs)

theorem cleanAnswers_error_of_mem_none (l : List (Option String))
    (h : none ∈ l) :
    cleanAnswers l = .error (.exception "AttributeError") := by
  induction l with
  | nil => simp at h
  | cons o rest ih =>
    unfold cleanAnswers at ih ⊢
    rw [List.mapM_cons]
    cases o with
    | none => rfl
    | some s =>
      have hrest : none ∈ rest := by
        rcases List.mem_cons.mp h with hcon | h2
        · exact absurd hcon.symm (by simp)
        · exact h2
      rw [ih hrest]
      rfl

theorem generate_writes_error_of_exec_error (resultKeys : List String)
    (results : String → List (Option String))
    (h : sectionWrites resultKeys results "Executive Summary" =
      .error (.exception "AttributeError")) :
    generate_credit_memo_writes resultKeys results =
      .error (.exception "AttributeError") := by
  unfold generate_credit_memo_writes SECTION_ORDER
  rw [List.mapM_cons, h]
  rfl

end AssemblyLemmas

/-- C4 counterexample: with the "Financial Analysis" result list holding a
single `None` (e.g. its only group failed), both assembly paths still
write that section's heading (followed by a blank body), refuting the
claim that nothing — neither heading nor body — is written for a section
whose list contains only `None`; the app.py path even writes headings for
completely empty sections. -/
theorem none_only_section_still_gets_heading :
    generate_credit_memo_writes CREDIT_MEMO_SECTION_KEYS
        (fun s => if s = "Financial Analysis" then [none] else []) =
      .ok ["## Executive Summary\n\n", "\n\n",
           "## Background, Management, And Ownership\n\n", "\n\n",
           "## Financial Analysis\n\n", "\n\n",
           "## Collateral And Security\n\n", "\n\n",
           "## Risk Assessment\n\n", "\n\n",
           "## Loan Structure And Terms\n\n", "\n\n",
           "## Recommendation And Conclusion\n\n", "\n\n"]
    ∧ pipeline_main_writes
        (fun s => if s = "Financial Analysis" then [none] else []) =
      ["## Financial Analysis\n\n", "\n\n"] :=
  ⟨by rfl, by decide⟩

/-- C4 amended: during assembly, only sections absent from the result map
produce no output.  A present non-Executive-Summary section always gets
its heading and a body holding exactly the non-null non-empty answers, so
an empty or all-`None` list yields the heading followed by a blank body.
A present Executive Summary section gets its heading when its list is
empty or contains no `None` (its answers are title-line-cleaned first),
but a non-empty Executive Summary list containing a `None` raises
`AttributeError` during cleaning and aborts the entire report write, so
nothing is written at all.  The pipeline.py assembly skips sections with
an empty list but still writes the heading for a non-empty all-`None`
list (it does no Executive Summary cleaning). -/
theorem assembly_skips_only_absent_sections
    (resultKeys : List String) (results : String → List (Option String))
    (sec : String) :
    (sec ∉ resultKeys → sectionWrites resultKeys results sec = .ok [])
    ∧ (sec ∈ resultKeys → sec ≠ "Executive Summary" →
        sectionWrites resultKeys results sec =
          .ok [sectionHeading sec, sectionBody (results sec)])
    ∧ ((∀ o ∈ results sec, o = none) → sectionBody (results sec) = "\n\n")
    ∧ (sec = "Executive Summary" → sec ∈ resultKeys →
        (∀ o ∈ results sec, o ≠ none) →
        ∃ cleaned, sectionWrites resultKeys results sec =
          .ok [sectionHeading sec, sectionBody cleaned])
    ∧ (sec = "Executive Summary" → sec ∈ resultKeys → results sec ≠ [] →
        none ∈ results sec →
        sectionWrites resultKeys results sec =
          .error (.exception "AttributeError")
        ∧ generate_credit_memo_writes resultKeys results =
          .error (.exception "AttributeError"))
    ∧ (results sec ≠ [] → pipelineMainSectionWrites results sec =
        [sectionHeading sec, sectionBody (results sec)])
    ∧ (results sec = [] → pipelineMainSectionWrites results sec = []) := by
  refine ⟨?_, ?_, ?_, ?_, ?_, ?_, ?_⟩
  · intro hnotin
    unfold sectionWrites
    rw [if_neg hnotin]
  · intro hin hsec
    exact sectionWrites_of_ne_exec resultKeys results sec hsec hin
  · intro hall
    unfold sectionBody
    rw [pyFilterNone_nil_of_all_none _ hall]
    rfl
  · intro hes hin hnone
    by_cases hcond : results sec ≠ [] ∧ sec = "Executive Summary"
    · obtain ⟨cleaned, hcl⟩ := cleanAnswers_ok_of_all_some (results sec) hnone
      refine ⟨cleaned, ?_⟩
      unfold sectionWrites
      rw [if_pos hin, if_pos hcond, hcl]
      rfl
    · refine ⟨results sec, ?_⟩
      unfold sectionWrites
      rw [if_pos hin, if_neg hcond]
      rfl
  · intro hes hin hne hmem
    have herr : sectionWrites resultKeys results sec =
        .error (.exception "AttributeError") := by
      unfold sectionWrites
      rw [if_pos hin, if_pos ⟨hne, hes⟩,
        cleanAnswers_error_of_mem_none (results sec) hmem]
      rfl
    refine ⟨herr, ?_⟩
    rw [hes] at herr
    exact generate_writes_error_of_exec_error resultKeys results herr
  · intro hne
    unfold pipelineMainSectionWrites
    rw [if_pos hne]
  · intro hnil
    unfold pipelineMainSectionWrites
    rw [if_neg (by simp [hnil])]

/-- Witness for the amended C4 claim: a concrete all-`None` "Financial
Analysis" section still gets its heading, and a concrete all-`None`
Executive Summary list aborts the whole report write. -/
theorem assembly_skips_only_absent_sections_witness :
    sectionWrites CREDIT_MEMO_SECTION_KEYS
        (fun s => if s = "Financial Analysis" then [none] else [])
        "Financial Analysis" =
      .ok [sectionHeading "Financial Analysis",
        sectionBody ((fun s : String =>
          if s = "Financial Analysis" then [(none : Option String)] else [])
            "Financial Analysis")]
    ∧ generate_credit_memo_writes CREDIT_MEMO_SECTION_KEYS
        (fun s => if s = "Executive Summary" then [none] else []) =
      .error (.exception "AttributeError") :=
  ⟨(assembly_skips_only_absent_sections CREDIT_MEMO_SECTION_KEYS
      (fun s => if s = "Financial Analysis" then [none] else [])
      "Financial Analysis").2.1 (by decide) (by decide),
   ((assembly_skips_only_absent_sections CREDIT_MEMO_SECTION_KEYS
      (fun s => if s = "Executive Summary" then [none] else [])
      "Executive Summary").2.2.2.2.1 rfl (by decide) (by decide)
      (by decide)).2⟩

/-- C2: every independent task is submitted as a two-argument call of the
three-parameter `RAGPipelineCosine.run`, and both dependent tasks call the
three-parameter `generate_answer` with two arguments; each such call
raises `TypeError`, the per-task handler swallows it, and consequently no
section's result list ever receives an answer. -/
theorem submitted_calls_raise_typeerror_and_results_stay_empty
    (sections : List (String × List TaskGroup)) (events : List Event)
    (summaryGroup recGroup : Option RagTask)
    (runBody : RagTask → TaskOutcome) (summaryBody recBody : TaskOutcome)
    (hev : ∀ e ∈ events, e.outcome = submittedRunOutcome (runBody e.task)) :
    (∀ b, submittedRunOutcome b = .raised .typeError)
    ∧ (∀ b, submittedGenerateAnswerOutcome b = .raised .typeError)
    ∧ ∀ s, (run_rag_tasks_in_parallel sections events summaryGroup recGroup
        (submittedGenerateAnswerOutcome summaryBody)
        (submittedGenerateAnswerOutcome recBody)).results s = [] := by
  refine ⟨fun b => rfl, fun b => rfl, ?_⟩
  intro s
  have hindep : (runIndependentPhase sections events).results s = [] := by
    have hall : ∀ (l : List Event) (st : OrchState),
        (∀ e ∈ l, e.outcome = .raised .typeError) →
        (l.foldl (processIndependentEvent sections) st) = st := by
      intro l
      induction l with
      | nil => intro st _; rfl
      | cons e es ih =>
        intro st hr
        rw [List.foldl_cons]
        have he : processIndependentEvent sections st e = st := by
          have h0 : e.outcome = .raised .typeError := hr e (by simp)
          unfold processIndependentEvent
          rw [h0]
        rw [he]
        exact ih st (fun x hx => hr x (by simp [hx]))
    have : runIndependentPhase sections events = initState := by
      unfold runIndependentPhase
      exact hall events initState (fun e he => by rw [hev e he]; rfl)
    rw [this]; rfl
  unfold run_rag_tasks_in_parallel runDependentPhase
  cases summaryGroup <;> cases recGroup <;>
    simp only [processDependentEvent] <;> exact hindep

/-- Witness for C2: a concrete submitted task list leaves every result
list empty. -/
theorem submitted_calls_raise_typeerror_witness :
    (run_rag_tasks_in_parallel
        [("Financial Analysis", [⟨"q1", [], true, false, false, false⟩])]
        [⟨⟨"Financial Analysis", ⟨"q1", [], true, false, false, false⟩⟩,
          submittedRunOutcome (.ok "would-be answer")⟩]
        (some ⟨"Executive Summary", ⟨"qs", [], false, false, false, false⟩⟩)
        (some ⟨"Recommendation and Conclusion", ⟨"qr", [], false, false, false, false⟩⟩)
        (submittedGenerateAnswerOutcome (.ok "summary"))
        (submittedGenerateAnswerOutcome (.ok "recommendation"))).results
      "Financial Analysis" = [] :=
  (submitted_calls_raise_typeerror_and_results_stay_empty _ _ _ _
    (fun _ => .ok "would-be answer") (.ok "summary") (.ok "recommendation")
    (fun e he => by
      rcases List.mem_singleton.mp he with rfl
      rfl)).2.2 "Financial Analysis"

/-- C3: when one independent task raises, the exception is swallowed (the
whole run equals the run without that completion event, so no sibling is
affected), the failed group's slot stays unset (absent or `None`, hence
filtered out at assembly), and the assembled document still contains every
other successful group's non-empty answer. -/
theorem task_failure_isolated
    (sections : List (String × List TaskGroup)) (pre post : List Event)
    (failTask : RagTask) (err : PyErr)
    (summaryGroup recGroup : Option RagTask) (so ro : TaskOutcome)
    (resultKeys : List String)
    (htasks : ((pre ++ ⟨failTask, .raised err⟩ :: post).map Event.task).Nodup)
    (hnoexec : ∀ e ∈ pre ++ ⟨failTask, .raised err⟩ :: post,
        e.task.sec ≠ "Executive Summary")
    (hsg : ∀ t, summaryGroup = some t → t.sec ≠ failTask.sec)
    (hrg : ∀ t, recGroup = some t → t.sec ≠ failTask.sec) :
    run_rag_tasks_in_parallel sections (pre ++ ⟨failTask, .raised err⟩ :: post)
        summaryGroup recGroup so ro =
      run_rag_tasks_in_parallel sections (pre ++ post)
        summaryGroup recGroup so ro
    ∧ (∀ gs, sectionGroups sections failTask.sec = some gs →
        failTask.group ∈ gs →
        ((run_rag_tasks_in_parallel sections
            (pre ++ ⟨failTask, .raised err⟩ :: post) summaryGroup recGroup
            so ro).results failTask.sec)[gs.indexOf failTask.group]? = none
        ∨ ((run_rag_tasks_in_parallel sections
            (pre ++ ⟨failTask, .raised err⟩ :: post) summaryGroup recGroup
            so ro).results failTask.sec)[gs.indexOf failTask.group]? = some none)
    ∧ (∀ e ∈ pre ++ post, ∀ a, e.outcome = .ok a → a ≠ "" →
        ∀ gs, sectionGroups sections e.task.sec = some gs →
          e.task.group ∈ gs → e.task.sec ∈ SECTION_ORDER →
          e.task.sec ∈ resultKeys →
          ∃ w, generate_credit_memo_writes resultKeys
              ((run_rag_tasks_in_parallel sections
                (pre ++ ⟨failTask, .raised err⟩ :: post) summaryGroup recGroup
                so ro).results) = .ok w ∧
            ∃ piece ∈ w, List.IsInfix a.data piece.data) := by
  have hindep : runIndependentPhase sections
      (pre ++ ⟨failTask, .raised err⟩ :: post) =
      runIndependentPhase sections (pre ++ post) := by
    unfold runIndependentPhase
    rw [List.foldl_append, List.foldl_append, List.foldl_cons]
    rfl
  have hfailmem : (⟨failTask, .raised err⟩ : Event) ∈
      pre ++ ⟨failTask, .raised err⟩ :: post := by
    simp
  refine ⟨?_, ?_, ?_⟩
  · unfold run_rag_tasks_in_parallel
    rw [hindep]
  · intro gs hgs hmem
    have hne : ∀ x ∈ pre ++ ⟨failTask, .raised err⟩ :: post,
        eventSlot sections x ≠
          some (failTask.sec, gs.indexOf failTask.group) := by
      intro x hx hcon
      have hphan : eventSlot sections ⟨failTask, .ok ""⟩ =
          some (failTask.sec, gs.indexOf failTask.group) :=
        eventSlot_ok sections failTask "" gs hgs hmem
      have hxt : x.task = failTask :=
        eventSlot_injective sections x ⟨failTask, .ok ""⟩ _ hcon hphan
      have hxfail : x ≠ ⟨failTask, .raised err⟩ := by
        intro hcon2
        rw [hcon2] at hcon
        simp [eventSlot] at hcon
      apply hxfail
      exact List.inj_on_of_nodup_map htasks hx hfailmem hxt
    have hunset := foldl_resultsStep_preserves_unset sections
      (pre ++ ⟨failTask, .raised err⟩ :: post) (fun _ => [])
      failTask.sec (gs.indexOf failTask.group) hne (by left; rfl)
    have hdep : (run_rag_tasks_in_parallel sections
        (pre ++ ⟨failTask, .raised err⟩ :: post) summaryGroup recGroup so
        ro).results failTask.sec =
        (runIndependentPhase sections
          (pre ++ ⟨failTask, .raised err⟩ :: post)).results failTask.sec := by
      unfold run_rag_tasks_in_parallel
      exact runDependentPhase_results_other _ summaryGroup recGroup so ro
        failTask.sec hsg hrg
    rw [hdep, runIndependentPhase_results]
    exact hunset
  · intro e he a ha hane gs hgs hmem hsecorder hseckeys
    have hee : e ∈ pre ++ ⟨failTask, .raised err⟩ :: post := by
      rcases List.mem_append.mp he with h1 | h2
      · exact List.mem_append_left _ h1
      · exact List.mem_append_right _ (List.mem_cons_of_mem _ h2)
    have hslotval := runIndependentPhase_slot_value sections
      (pre ++ ⟨failTask, .raised err⟩ :: post) htasks e hee a ha gs hgs hmem
    have hfinal : ((run_rag_tasks_in_parallel sections
        (pre ++ ⟨failTask, .raised err⟩ :: post) summaryGroup recGroup so
        ro).results e.task.sec)[gs.indexOf e.task.group]? = some (some a) := by
      unfold run_rag_tasks_in_parallel
      exact runDependentPhase_getElem _ summaryGroup recGroup so ro _ _ _ hslotval
    have hmemres : some a ∈ (run_rag_tasks_in_parallel sections
        (pre ++ ⟨failTask, .raised err⟩ :: post) summaryGroup recGroup so
        ro).results e.task.sec := List.getElem?_mem hfinal
    have hfa : a ∈ pyFilterNone ((run_rag_tasks_in_parallel sections
        (pre ++ ⟨failTask, .raised err⟩ :: post) summaryGroup recGroup so
        ro).results e.task.sec) :=
      mem_pyFilterNone _ a hmemres hane
    have hESall : ∀ o ∈ (run_rag_tasks_in_parallel sections
        (pre ++ ⟨failTask, .raised err⟩ :: post) summaryGroup recGroup so
        ro).results "Executive Summary", o ≠ none := by
      unfold run_rag_tasks_in_parallel
      apply runDependentPhase_all_some
      have hESindep : (runIndependentPhase sections
          (pre ++ ⟨failTask, .raised err⟩ :: post)).results
            "Executive Summary" = [] := by
        rw [runIndependentPhase_results]
        exact foldl_resultsStep_other_sections sections _ _ _
          (fun x hx => hnoexec x hx)
      rw [hESindep]
      simp
    have hok : ∀ s ∈ SECTION_ORDER, ∃ v,
        sectionWrites resultKeys ((run_rag_tasks_in_parallel sections
          (pre ++ ⟨failTask, .raised err⟩ :: post) summaryGroup recGroup so
          ro).results) s = .ok v :=
      fun s _ => sectionWrites_ok resultKeys _ s hESall
    obtain ⟨ws, hws, hmemws⟩ := mapM_ok_exists SECTION_ORDER _ hok
    refine ⟨ws.flatten, ?_, ?_⟩
    · unfold generate_credit_memo_writes
      rw [hws]
      rfl
    · have hsw := sectionWrites_of_ne_exec resultKeys
        ((run_rag_tasks_in_parallel sections
          (pre ++ ⟨failTask, .raised err⟩ :: post) summaryGroup recGroup so
          ro).results) e.task.sec (hnoexec e hee) hseckeys
      have hpiecemem := hmemws e.task.sec hsecorder _ hsw
      refine ⟨sectionBody ((run_rag_tasks_in_parallel sections
          (pre ++ ⟨failTask, .raised err⟩ :: post) summaryGroup recGroup so
          ro).results e.task.sec),
        List.mem_flatten.mpr ⟨_, hpiecemem, by simp⟩, ?_⟩
      unfold sectionBody
      rw [String.data_append _ _]
      exact (substring_of_mem_pyJoin "\n\n" _ a hfa).trans
        (List.prefix_append _ _).isInfix

/-- Witness for C3: one concrete failing task next to one concrete
successful task; the successful "Financial Analysis" answer still reaches
the assembled document. -/
theorem task_failure_isolated_witness :
    ∃ w, generate_credit_memo_writes CREDIT_MEMO_SECTION_KEYS
        ((run_rag_tasks_in_parallel
          [("Financial Analysis", [⟨"qa", [], true, false, false, false⟩]),
           ("Risk Assessment", [⟨"qb", [], false, false, false, false⟩])]
          ([⟨⟨"Financial Analysis", ⟨"qa", [], true, false, false, false⟩⟩,
              .ok "good answer"⟩] ++
            ⟨⟨"Risk Assessment", ⟨"qb", [], false, false, false, false⟩⟩,
              .raised (.exception "LLM down")⟩ :: [])
          none none (.raised .typeError) (.raised .typeError)).results) =
        .ok w ∧
      ∃ piece ∈ w, List.IsInfix "good answer".data piece.data :=
  (task_failure_isolated
    [("Financial Analysis", [⟨"qa", [], true, false, false, false⟩]),
     ("Risk Assessment", [⟨"qb", [], false, false, false, false⟩])]
    [⟨⟨"Financial Analysis", ⟨"qa", [], true, false, false, false⟩⟩,
       .ok "good answer"⟩] []
    ⟨"Risk Assessment", ⟨"qb", [], false, false, false, false⟩⟩
    (.exception "LLM down") none none (.raised .typeError)
    (.raised .typeError) CREDIT_MEMO_SECTION_KEYS
    (by decide) (by decide)
    (fun t ht => by cases ht) (fun t ht => by cases ht)).2.2
    ⟨⟨"Financial Analysis", ⟨"qa", [], true, false, false, false⟩⟩,
      .ok "good answer"⟩
    (by simp) "good answer" rfl (by decide)
    [⟨"qa", [], true, false, false, false⟩] (by decide) (by decide)
    (by decide) (by decide)

section RagRun

/-!
Model of `RAGPipelineCosine.run` (src/resources/rag.py lines 102-146).
The vector-store retrieval `self.retrieve(query, n_results, filter)` is an
external collaborator and is passed in as a function from the sub-query to
the returned `(document, metadata)` pairs; the page-to-text manifest read
from `split_page_file` is passed in as the page list it deserializes to.
-/

/-- Metadata of one retrieved chunk, as returned by the vector store. -/
structure ChunkMeta where
  page : Int
  type : String
deriving DecidableEq, Repr

/-- Provenance-tagged entry of the full-page context list: either a
"loan"-typed chunk appended verbatim, or a page resolved through the
page-to-text manifest. -/
inductive FullPageEntry where
  | loanDoc (doc : String)
  | pageText (page : Int)
deriving DecidableEq, Repr

/-- Page number of a non-loan entry. -/
def FullPageEntry.pageOf : FullPageEntry → Option Int
  | .loanDoc _ => none
  | .pageText p => some p

/-- Rendering of one entry to the string actually appended to `all_docs`
(rag.py lines 120-129): a loan chunk contributes its own text; any other
chunk contributes `full_pages[page-1]` with Python list indexing. -/
def renderEntry (full_pages : List String) : FullPageEntry → Except PyErr String
  | .loanDoc doc => .ok doc
  | .pageText p => pyIndex full_pages (p - 1)

/-- One iteration of the inner full-page loop (rag.py lines 115-131):
"loan"-typed chunks are always appended and never recorded in `seen`;
any other chunk is appended as its page unless the page is in `seen`. -/
def fullPageStep (acc : List FullPageEntry × List Int)
    (dm : String × ChunkMeta) : List FullPageEntry × List Int :=
  if dm.2.type = "loan" then (acc.1 ++ [.loanDoc dm.1], acc.2)
  else if dm.2.page ∈ acc.2 then acc
  else (acc.1 ++ [.pageText dm.2.page], acc.2 ++ [dm.2.page])

/-- Full-page collection loops of `RAGPipelineCosine.run` (rag.py lines
107-131), instrumented with provenance: the entry list in append order
together with the final `seen` page set (as an insertion-ordered list). -/
def collectFullPageEntries (retrieve : SemQuery → List (String × ChunkMeta))
    (queries : List SemQuery) : List FullPageEntry × List Int :=
  queries.foldl (fun acc q => (retrieve q).foldl fullPageStep acc) ([], [])

/-- Document list built in full-page mode: the provenance entries rendered
in order (an out-of-range page raises `IndexError`, which propagates out
of `run`). -/
def runFullPageDocs (retrieve : SemQuery → List (String × ChunkMeta))
    (full_pages : List String) (queries : List SemQuery) :
    Except PyErr (List String) :=
  (collectFullPageEntries retrieve queries).1.mapM (renderEntry full_pages)

/-- Document list built in non-full-page mode (rag.py lines 132-141): all
retrieved documents of all sub-queries in retrieval order, deduplicated by
exact text via `OrderedDict.fromkeys`. -/
def runChunkDocs (retrieve : SemQuery → List (String × ChunkMeta))
    (queries : List SemQuery) : List String :=
  pyDedup ((queries.map (fun q => (retrieve q).map Prod.fst)).flatten)

/-- Context documents passed to `generate_answer` by
`RAGPipelineCosine.run` (rag.py lines 102-146). -/
def rag_run_context_docs (retrieve : SemQuery → List (String × ChunkMeta))
    (full_pages : List String) (group : TaskGroup) :
    Except PyErr (List String) :=
  if group.full_page then
    runFullPageDocs retrieve full_pages group.semantic_queries
  else .ok (runChunkDocs retrieve group.semantic_queries)

end RagRun

section RagRunLemmas

theorem mem_pyDedup (l : List String) (a : String) :
    a ∈ pyDedup l ↔ a ∈ l := by
  induction l using pyDedup.induct with
  | case1 => simp [pyDedup]
  | case2 b rest ih =>
    rw [pyDedup]
    constructor
    · intro h
      rcases List.mem_cons.mp h with rfl | h2
      · exact List.mem_cons_self _ _
      · have := ih.mp h2
        exact List.mem_cons_of_mem _ (List.mem_of_mem_filter this)
    · intro h
      rcases List.mem_cons.mp h with rfl | h2
      · exact List.mem_cons_self _ _
      · by_cases hab : a = b
        · rw [hab]; exact List.mem_cons_self _ _
        · exact List.mem_cons_of_mem _
            (ih.mpr (List.mem_filter.mpr ⟨h2, by simp [hab]⟩))

theorem pyDedup_nodup (l : List String) : (pyDedup l).Nodup := by
  induction l using pyDedup.induct with
  | case1 => simp [pyDedup]
  | case2 b rest ih =>
    rw [pyDedup]
    rw [List.nodup_cons]
    refine ⟨?_, ih⟩
    intro hcon
    have := (mem_pyDedup _ _).mp hcon
    have := List.mem_filter.mp this
    simp at this

theorem pyDedup_sublist (l : List String) : List.Sublist (pyDedup l) l := by
  induction l using pyDedup.induct with
  | case1 => simp [pyDedup]
  | case2 b rest ih =>
    rw [pyDedup]
    exact List.Sublist.cons₂ b (ih.trans (List.filter_sublist rest))

theorem fullPageStep_inv (acc : List FullPageEntry × List Int)
    (dm : String × ChunkMeta)
    (h : acc.1.filterMap FullPageEntry.pageOf = acc.2 ∧ acc.2.Nodup) :
    (fullPageStep acc dm).1.filterMap FullPageEntry.pageOf =
        (fullPageStep acc dm).2 ∧ (fullPageStep acc dm).2.Nodup := by
  unfold fullPageStep
  by_cases h1 : dm.2.type = "loan"
  · rw [if_pos h1]
    refine ⟨?_, h.2⟩
    rw [List.filterMap_append, h.1]
    simp [FullPageEntry.pageOf]
  · rw [if_neg h1]
    by_cases h2 : dm.2.page ∈ acc.2
    · rw [if_pos h2]; exact h
    · rw [if_neg h2]
      constructor
      · rw [List.filterMap_append, h.1]
        simp [FullPageEntry.pageOf]
      · rw [List.nodup_append]
        exact ⟨h.2, List.nodup_singleton _, by simpa using h2⟩

theorem foldl_fullPageStep_inv (l : List (String × ChunkMeta))
    (acc : List FullPageEntry × List Int)
    (h : acc.1.filterMap FullPageEntry.pageOf = acc.2 ∧ acc.2.Nodup) :
    (l.foldl fullPageStep acc).1.filterMap FullPageEntry.pageOf =
        (l.foldl fullPageStep acc).2 ∧ (l.foldl fullPageStep acc).2.Nodup := by
  induction l generalizing acc with
  | nil => exact h
  | cons dm rest ih =>
    rw [List.foldl_cons]
    exact ih _ (fullPageStep_inv acc dm h)

theorem collectFullPageEntries_inv
    (retrieve : SemQuery → List (String × ChunkMeta))
    (queries : List SemQuery) :
    (collectFullPageEntries retrieve queries).1.filterMap
        FullPageEntry.pageOf =
      (collectFullPageEntries retrieve queries).2
    ∧ (collectFullPageEntries retrieve queries).2.Nodup := by
  unfold collectFullPageEntries
  generalize hinit : (([], []) : List FullPageEntry × List Int) = acc
  have hbase : acc.1.filterMap FullPageEntry.pageOf = acc.2 ∧ acc.2.Nodup := by
    rw [← hinit]; exact ⟨rfl, List.nodup_nil⟩
  clear hinit
  induction queries generalizing acc with
  | nil => exact hbase
  | cons q rest ih =>
    rw [List.foldl_cons]
    exact ih _ (foldl_fullPageStep_inv (retrieve q) acc hbase)

end RagRunLemmas

/-- C5: for any task group run in isolation, the context document list is
duplicate-free in the sense of the spec: in non-full-page mode it is an
exact-duplicate-free, first-seen-order-preserving sublist of the retrieved
documents with the same members; in full-page mode the entries resolved
from page numbers carry pairwise-distinct pages, the only repetition being
"loan"-typed chunks, which are appended verbatim every time they match. -/
theorem rag_run_context_docs_dedup
    (retrieve : SemQuery → List (String × ChunkMeta))
    (full_pages : List String) (group : TaskGroup) :
    (group.full_page = true →
      rag_run_context_docs retrieve full_pages group =
        (collectFullPageEntries retrieve group.semantic_queries).1.mapM
          (renderEntry full_pages)
      ∧ ((collectFullPageEntries retrieve group.semantic_queries).1.filterMap
          FullPageEntry.pageOf).Nodup)
    ∧ (group.full_page = false →
      rag_run_context_docs retrieve full_pages group =
        .ok (runChunkDocs retrieve group.semantic_queries)
      ∧ (runChunkDocs retrieve group.semantic_queries).Nodup
      ∧ List.Sublist (runChunkDocs retrieve group.semantic_queries)
          ((group.semantic_queries.map
            (fun q => (retrieve q).map Prod.fst)).flatten)
      ∧ ∀ d, (d ∈ runChunkDocs retrieve group.semantic_queries ↔
          d ∈ (group.semantic_queries.map
            (fun q => (retrieve q).map Prod.fst)).flatten)) := by
  constructor
  · intro hfp
    refine ⟨?_, ?_⟩
    · unfold rag_run_context_docs
      rw [hfp]
      rfl
    · obtain ⟨heq, hnd⟩ := collectFullPageEntries_inv retrieve group.semantic_queries
      rw [heq]
      exact hnd
  · intro hfp
    refine ⟨?_, pyDedup_nodup _, pyDedup_sublist _, fun d => mem_pyDedup _ d⟩
    unfold rag_run_context_docs
    rw [hfp]
    rfl

/-- Witness for C5: the theorem applied to one concrete full-page group
and one concrete non-full-page group with a duplicate retrieval. -/
theorem rag_run_context_docs_dedup_witness :
    ((collectFullPageEntries
        (fun _ => [("docA", ⟨1, "text"⟩), ("docB", ⟨1, "text"⟩),
                   ("docL", ⟨1, "loan"⟩)])
        [⟨"q", 3, none⟩]).1.filterMap FullPageEntry.pageOf).Nodup
    ∧ (runChunkDocs
        (fun _ => [("docA", ⟨1, "text"⟩), ("docA", ⟨2, "text"⟩)])
        [⟨"q", 2, none⟩]).Nodup :=
  ⟨(rag_run_context_docs_dedup
      (fun _ => [("docA", ⟨1, "text"⟩), ("docB", ⟨1, "text"⟩),
                 ("docL", ⟨1, "loan"⟩)])
      ["page one text"]
      ⟨"uq", [⟨"q", 3, none⟩], true, false, false, false⟩ |>.1 rfl).2,
   ((rag_run_context_docs_dedup
      (fun _ => [("docA", ⟨1, "text"⟩), ("docA", ⟨2, "text"⟩)])
      []
      ⟨"uq", [⟨"q", 2, none⟩], false, false, false, false⟩ |>.2 rfl).2).1⟩

section Embeddings

/-!
Model of the embedding helpers.  The HTTP layer is an external
collaborator: an attempt either raises (connection error, timeout) or
yields a parsed JSON response with a status code and an optional
"embedding" field.
-/

/-- Parsed response of the Ollama embeddings endpoint. -/
structure EmbedResponse where
  status : Nat
  embedding : Option (List ℚ)

/-- Zero-vector fallback `[0.0] * 768`. -/
def zeroVector : List ℚ := List.replicate 768 0

/-- Shared body of the embedding calls: POST, `raise_for_status()`, then
`response.json()["embedding"]`; a transport error, an HTTP error status or
a missing "embedding" key raises. -/
def embedCallResult (remote : Except PyErr EmbedResponse) :
    Except PyErr (List ℚ) :=
  match remote with
  | .error e => .error e
  | .ok resp =>
    if 400 ≤ resp.status then .error (.exception "HTTPError")
    else
      match resp.embedding with
      | some v => .ok v
      | none => .error (.exception "KeyError")

/-- `get_embedding` of src/resources/embeddings.py (lines 8-16), the
helper `RAGPipelineCosine.retrieve` imports for query embedding: no
handler, so any failure propagates to the caller. -/
def embeddings_get_embedding (remote : Except PyErr EmbedResponse) :
    Except PyErr (List ℚ) :=
  embedCallResult remote

/-- `get_embedding` of src/resources/chunker.py (lines 17-30), used by the
synchronous indexing path: the identical call wrapped in `try/except` with
the `[0.0] * 768` fallback. -/
def chunker_get_embedding (remote : Except PyErr EmbedResponse) : List ℚ :=
  match embedCallResult remote with
  | .ok v => v
  | .error _ => zeroVector

/-- `get_embedding_async` of src/resources/chunker.py (lines 43-54), used
by batched async indexing: `resp.json().get("embedding", [0.0]*768)` with
the same `try/except` zero-vector fallback. -/
def chunker_get_embedding_async (remote : Except PyErr EmbedResponse) :
    List ℚ :=
  match remote with
  | .error _ => zeroVector
  | .ok resp =>
    if 400 ≤ resp.status then zeroVector
    else resp.embedding.getD zeroVector

end Embeddings

/-- C6 counterexample: the embedding helper the querying path actually
uses (resources/embeddings.py, imported by rag.py line 4) propagates a
transport error instead of returning the 768-length zero vector. -/
theorem query_embedding_propagates_error :
    embeddings_get_embedding (.error (.exception "ConnectionError")) =
      .error (.exception "ConnectionError")
    ∧ embeddings_get_embedding (.error (.exception "ConnectionError")) ≠
        .ok zeroVector := by
  constructor
  · rfl
  · intro h
    cases h

/-- C6 amended: the chunker's two embedding helpers — the ones indexing
uses — return the 768-length zero vector on any error (transport failure
or HTTP error status), but the querying path's helper in
resources/embeddings.py propagates the error to its caller. -/
theorem embedding_error_fallback_only_in_chunker
    (e : PyErr) (resp : EmbedResponse) (h400 : 400 ≤ resp.status) :
    chunker_get_embedding (.error e) = zeroVector
    ∧ chunker_get_embedding_async (.error e) = zeroVector
    ∧ chunker_get_embedding (.ok resp) = zeroVector
    ∧ chunker_get_embedding_async (.ok resp) = zeroVector
    ∧ zeroVector.length = 768
    ∧ embeddings_get_embedding (.error e) = .error e := by
  refine ⟨rfl, rfl, ?_, ?_, ?_, rfl⟩
  · unfold chunker_get_embedding embedCallResult
    dsimp only
    rw [if_pos h400]
  · unfold chunker_get_embedding_async
    dsimp only
    rw [if_pos h400]
  · unfold zeroVector
    exact List.length_replicate 768 0

/-- Witness for the amended C6 claim at a concrete error and a concrete
HTTP 500 response. -/
theorem embedding_error_fallback_only_in_chunker_witness :
    chunker_get_embedding (.error (.exception "Timeout")) = zeroVector
    ∧ embeddings_get_embedding (.error (.exception "Timeout")) =
        .error (.exception "Timeout") :=
  ⟨(embedding_error_fallback_only_in_chunker (.exception "Timeout")
      ⟨500, none⟩ (by decide)).1,
   (embedding_error_fallback_only_in_chunker (.exception "Timeout")
      ⟨500, none⟩ (by decide)).2.2.2.2.2⟩

section LLMAdapter

/-!
Model of `LocalLLMAdapter.chat` (src/resources/llm_adapter.py lines
12-60).  One POST attempt either raises a `requests.exceptions.
RequestException` (transport failure, which also covers
`raise_for_status`) or yields response data parsed by `safe_json_parse`,
which never raises: unparseable bodies become the empty dict.
-/

/-- Parsed chat response as consulted by `chat` (lines 54-60): the
standard content fields, the fallback fields, and the `str(data)`
representation used as a last resort.  A field is `none` when the
corresponding key path is absent. -/
structure ChatData where
  choices_content : Option String
  message_content : Option String
  output : Option String
  result : Option String
  str_repr : String
deriving DecidableEq, Repr

/-- One POST attempt: transport failure or parsed response data. -/
inductive ChatAttempt where
  | transportError
  | parsed (data : ChatData)
deriving DecidableEq, Repr

/-- Python truthiness of a `.get(...)` value: `None` and the empty string
are falsy. -/
def pyTruthy (o : Option String) : Option String :=
  match o with
  | some s => if s = "" then none else some s
  | none => none

/-- Extraction of the returned text (lines 54-60):
`data["choices"][0]["message"]["content"]` when "choices" is present, else
`data["message"]["content"]`, else
`data.get("output") or data.get("result") or str(data)`. -/
def extractContent (d : ChatData) : String :=
  match d.choices_content with
  | some c => c
  | none =>
    match d.message_content with
    | some c => c
    | none =>
      match pyTruthy d.output with
      | some s => s
      | none =>
        match pyTruthy d.result with
        | some s => s
        | none => d.str_repr

/-- `LocalLLMAdapter.chat` (lines 40-60): one POST; on
`RequestException` exactly one retry; a second `RequestException` returns
the empty string.  Returns the produced string together with the number of
POST attempts made. -/
def chat (first second : ChatAttempt) : String × Nat :=
  match first with
  | .parsed d => (extractContent d, 1)
  | .transportError =>
    match second with
    | .parsed d => (extractContent d, 2)
    | .transportError => ("", 2)

end LLMAdapter

/-- C8: the chat call makes one POST when the first attempt succeeds and
exactly two (one retry) when it fails in transport; when either attempt
yields a response, that response's content is returned — in particular the
generated text when the standard "choices" content field is present — and
when both attempts fail in transport the empty string is returned. -/
theorem chat_retries_once_then_empty (first second : ChatAttempt) :
    ((chat first second).2 = match first with
      | .parsed _ => 1
      | .transportError => 2)
    ∧ (∀ d, first = .parsed d → (chat first second).1 = extractContent d)
    ∧ (∀ d, first = .transportError → second = .parsed d →
        (chat first second).1 = extractContent d)
    ∧ (∀ d c, d.choices_content = some c → extractContent d = c)
    ∧ (first = .transportError → second = .transportError →
        (chat first second).1 = "") := by
  refine ⟨?_, ?_, ?_, ?_, ?_⟩
  · cases first with
    | parsed d => rfl
    | transportError => cases second <;> rfl
  · intro d hd
    rw [hd]
    rfl
  · intro d h1 h2
    rw [h1, h2]
    rfl
  · intro d c hc
    unfold extractContent
    rw [hc]
  · intro h1 h2
    rw [h1, h2]
    rfl

/-- Witness for C8 at concrete attempts: a transport failure followed by a
successful response returns the generated content after exactly two POST
attempts; two failures return the empty string. -/
theorem chat_retries_once_then_empty_witness :
    (chat .transportError
        (.parsed ⟨some "generated text", none, none, none, "str"⟩)).1 =
      extractContent ⟨some "generated text", none, none, none, "str"⟩
    ∧ extractContent ⟨some "generated text", none, none, none, "str"⟩ =
        "generated text"
    ∧ (chat .transportError .transportError).1 = "" :=
  ⟨(chat_retries_once_then_empty .transportError
      (.parsed ⟨some "generated text", none, none, none, "str"⟩)).2.2.1
      ⟨some "generated text", none, none, none, "str"⟩ rfl rfl,
   (chat_retries_once_then_empty .transportError
      (.parsed ⟨some "generated text", none, none, none, "str"⟩)).2.2.2.1
      ⟨some "generated text", none, none, none, "str"⟩ "generated text" rfl,
   (chat_retries_once_then_empty .transportError .transportError).2.2.2.2
      rfl rfl⟩

section Chunker

/-!
Model of `MarkdownChunker` (src/resources/chunker.py).  The `tiktoken`
tokenizer is an external collaborator, passed in as a lookup from encoding
name to an encoder/decoder pair; the `re` regex engine is likewise
external, so each page block is given by the data the per-block regex
passes produce (blankness test, the prose text left after table removal
and blank-run normalization, and the pipe-table blocks found).  The
config module is modelled attribute-by-attribute since access to an
undefined attribute raises `AttributeError`.
-/

/-- Module-level attributes of src/resources/config/config.py relevant to
the chunker; `none` means the attribute is not defined. -/
structure PyConfig where
  CHUNK_SIZE : Option Nat
  DEFAULT_ENCODING : Option String
  MAX_TOKENS : Option Nat
  BATCH_SIZE : Option Nat
deriving DecidableEq, Repr

/-- The config module as shipped (config.py lines 1-17): `CHUNK_SIZE` is
defined (2000); `DEFAULT_ENCODING`, `MAX_TOKENS` and `BATCH_SIZE` are
nowhere defined. -/
def shippedConfig : PyConfig :=
  { CHUNK_SIZE := some 2000, DEFAULT_ENCODING := none,
    MAX_TOKENS := none, BATCH_SIZE := none }

/-- Python attribute access on the config module: `AttributeError` when
the attribute is not defined. -/
def pyGetattr {α : Type} (attr : Option α) : Except PyErr α :=
  match attr with
  | some v => .ok v
  | none => .error (.exception "AttributeError")

/-- Model of a `tiktoken` encoding: token encoder and decoder. -/
structure Encoding where
  encode : String → List Nat
  decode : List Nat → String

/-- Python `range(0, stop, step)` as a list of start offsets: a zero step
raises `ValueError`. -/
def pyRangeStep (stop step : Nat) : Except PyErr (List Nat) :=
  if step = 0 then .error (.exception "ValueError")
  else .ok ((List.range ((stop + step - 1) / step)).map (fun i => i * step))

/-- `MarkdownChunker.split_text_by_tokens` (chunker.py lines 74-85): reads
`config.DEFAULT_ENCODING` through `tiktoken.get_encoding`, then either
returns the text whole or cuts the token list into `max_tokens`-sized
windows, decoding and stripping each. -/
def split_text_by_tokens (cfg : PyConfig)
    (tik : String → Except PyErr Encoding) (text : String)
    (max_tokens : Nat) : Except PyErr (List String) := do
  let encName ← pyGetattr cfg.DEFAULT_ENCODING
  let enc ← tik encName
  let tokens := enc.encode text
  if tokens.length ≤ max_tokens then .ok [text]
  else do
    let starts ← pyRangeStep tokens.length max_tokens
    .ok (starts.map (fun i =>
      pyStrip (enc.decode ((tokens.drop i).take max_tokens))))

/-- One block of the regex page split in `extract_chunks_from_markdown`
(chunker.py lines 88-101): `is_blank` is `not page_content.strip()`,
`text_content` is the prose left after removing tables, collapsing blank
runs and stripping, and `tables` are the pipe-table matches. -/
structure PageBlock where
  is_blank : Bool
  text_content : String
  tables : List String
deriving DecidableEq, Repr

/-- A chunk dict as built by `extract_chunks_from_markdown`
(chunker.py lines 104-125); `table_index` is present for table chunks. -/
structure Chunk where
  chunk_id : Nat
  page : Nat
  type : String
  table_index : Option Nat
  content : String
  length : Nat
deriving DecidableEq, Repr

/-- Text chunks appended for one block (chunker.py lines 102-112): the
50-character significance threshold is applied to the block's prose, then
`config.MAX_TOKENS` is read and the prose token-split; each sub-chunk gets
the next `chunk_id` (`len(chunks)` at append time) and
`page = (block_index + 1) // 2`. -/
def textChunksOfBlock (cfg : PyConfig) (tik : String → Except PyErr Encoding)
    (page_idx startId : Nat) (b : PageBlock) : Except PyErr (List Chunk) :=
  if b.text_content ≠ "" ∧ 50 < (pyStrip b.text_content).length then do
    let mt ← pyGetattr cfg.MAX_TOKENS
    let subs ← split_text_by_tokens cfg tik b.text_content mt
    .ok (subs.enum.map (fun p =>
      { chunk_id := startId + p.1, page := (page_idx + 1) / 2, type := "text",
        table_index := none, content := p.2, length := p.2.length }))
  else .ok []

/-- One iteration of the table loop (chunker.py lines 113-125), `p`
pairing the enumerated `table_idx` with the table text. -/
def tableStep (cfg : PyConfig) (tik : String → Except PyErr Encoding)
    (page_idx startId : Nat) (acc : List Chunk) (p : Nat × String) :
    Except PyErr (List Chunk) :=
  if 20 < (pyStrip p.2).length then do
    let mt ← pyGetattr cfg.MAX_TOKENS
    let subs ← split_text_by_tokens cfg tik p.2 mt
    .ok (acc ++ subs.enum.map (fun q =>
      { chunk_id := startId + acc.length + q.1, page := (page_idx + 1) / 2,
        type := "table", table_index := some (p.1 + 1),
        content := q.2, length := q.2.length }))
  else .ok acc

/-- Table chunks appended for one block (chunker.py lines 113-125): each
table above the 20-character threshold is token-split, its sub-chunks
carrying the enumerated `table_index + 1` and continuing the global
`chunk_id`. -/
def tableChunksOfBlock (cfg : PyConfig) (tik : String → Except PyErr Encoding)
    (page_idx startId : Nat) (tables : List String) :
    Except PyErr (List Chunk) :=
  tables.enum.foldlM (tableStep cfg tik page_idx startId) []

/-- `MarkdownChunker.extract_chunks_from_markdown` (chunker.py lines
86-126) after the page split: iterate the regex blocks with their
indices (a `continue` on blank blocks), appending significant prose
sub-chunks then significant table sub-chunks, with a document-global
`chunk_id` equal to `len(chunks)` at each append. -/
def blockStep (cfg : PyConfig) (tik : String → Except PyErr Encoding)
    (chunks : List Chunk) (p : Nat × PageBlock) : Except PyErr (List Chunk) :=
  if p.2.is_blank then .ok chunks
  else do
    let tcs ← textChunksOfBlock cfg tik p.1 chunks.length p.2
    let bcs ← tableChunksOfBlock cfg tik p.1 (chunks.length + tcs.length)
      p.2.tables
    .ok (chunks ++ tcs ++ bcs)

/-- The whole block loop of `extract_chunks_from_markdown`. -/
def extract_chunks_from_markdown (cfg : PyConfig)
    (tik : String → Except PyErr Encoding) (blocks : List PageBlock) :
    Except PyErr (List Chunk) :=
  blocks.enum.foldlM (blockStep cfg tik) []

/-- The batching loop header of `create_embeddings_and_index_async`
(chunker.py lines 166-169): `range(0, len(chunks), config.BATCH_SIZE)`
reads `config.BATCH_SIZE` before producing any batch. -/
def batchStarts (cfg : PyConfig) (nchunks : Nat) : Except PyErr (List Nat) := do
  let bs ← pyGetattr cfg.BATCH_SIZE
  pyRangeStep nchunks bs

end Chunker

/-- A block the chunker considers significant: non-blank, with prose above
the 50-character threshold or some table above the 20-character
threshold — exactly the condition under which `extract_chunks_from_markdown`
reaches a `config.MAX_TOKENS` / `config.DEFAULT_ENCODING` access. -/
def significantBlock (b : PageBlock) : Prop :=
  b.is_blank = false ∧
    ((b.text_content ≠ "" ∧ 50 < (pyStrip b.text_content).length) ∨
     ∃ t ∈ b.tables, 20 < (pyStrip t).length)

section ChunkerLemmas

theorem tableFold_attrerror (tik : String → Except PyErr Encoding)
    (page_idx startId : Nat) :
    ∀ (tables : List String) (n : Nat) (acc : List Chunk),
      (∃ t ∈ tables, 20 < (pyStrip t).length) →
      (tables.enumFrom n).foldlM
        (tableStep shippedConfig tik page_idx startId) acc =
        .error (.exception "AttributeError") := by
  intro tables
  induction tables with
  | nil => intro n acc h; simp at h
  | cons t ts ih =>
    intro n acc h
    rw [show List.enumFrom n (t :: ts) = (n, t) :: List.enumFrom (n + 1) ts
      from rfl, List.foldlM_cons]
    by_cases hsig : 20 < (pyStrip t).length
    · have hstep : tableStep shippedConfig tik page_idx startId acc (n, t) =
          .error (.exception "AttributeError") := by
        unfold tableStep
        rw [if_pos hsig]
        rfl
      rw [hstep]
      rfl
    · have hstep : tableStep shippedConfig tik page_idx startId acc (n, t) =
          .ok acc := by
        unfold tableStep
        rw [if_neg hsig]
      rw [hstep]
      show (List.enumFrom (n + 1) ts).foldlM
        (tableStep shippedConfig tik page_idx startId) acc = _
      apply ih
      rcases h with ⟨t', ht', hsig'⟩
      rcases List.mem_cons.mp ht' with rfl | h2
      · exact absurd hsig' hsig
      · exact ⟨t', h2, hsig'⟩

theorem tableFold_ok (cfg : PyConfig) (tik : String → Except PyErr Encoding)
    (page_idx startId : Nat) :
    ∀ (tables : List String) (n : Nat) (acc : List Chunk),
      (∀ t ∈ tables, ¬ 20 < (pyStrip t).length) →
      (tables.enumFrom n).foldlM (tableStep cfg tik page_idx startId) acc =
        .ok acc := by
  intro tables
  induction tables with
  | nil => intro n acc _; rfl
  | cons t ts ih =>
    intro n acc h
    rw [show List.enumFrom n (t :: ts) = (n, t) :: List.enumFrom (n + 1) ts
      from rfl, List.foldlM_cons]
    have hstep : tableStep cfg tik page_idx startId acc (n, t) = .ok acc := by
      unfold tableStep
      rw [if_neg (h t (by simp))]
    rw [hstep]
    show (List.enumFrom (n + 1) ts).foldlM
      (tableStep cfg tik page_idx startId) acc = _
    exact ih (n + 1) acc (fun x hx => h x (by simp [hx]))

theorem blockStep_attrerror (tik : String → Except PyErr Encoding)
    (n : Nat) (chunks : List Chunk) (b : PageBlock)
    (hsb : significantBlock b) :
    blockStep shippedConfig tik chunks (n, b) =
      .error (.exception "AttributeError") := by
  obtain ⟨hbl, hrest⟩ := hsb
  unfold blockStep
  rw [if_neg (by simp [hbl])]
  by_cases htext : b.text_content ≠ "" ∧ 50 < (pyStrip b.text_content).length
  · have h1 : textChunksOfBlock shippedConfig tik n chunks.length b =
        .error (.exception "AttributeError") := by
      unfold textChunksOfBlock
      rw [if_pos htext]
      rfl
    rw [h1]
    rfl
  · have h1 : textChunksOfBlock shippedConfig tik n chunks.length b =
        .ok [] := by
      unfold textChunksOfBlock
      rw [if_neg htext]
    rw [h1]
    have htab : ∃ t ∈ b.tables, 20 < (pyStrip t).length := by
      rcases hrest with hx | hx
      · exact absurd hx htext
      · exact hx
    show (do
      let bcs ← tableChunksOfBlock shippedConfig tik n
        (chunks.length + ([] : List Chunk).length) b.tables
      (Except.ok (chunks ++ [] ++ bcs) : Except PyErr (List Chunk))) = _
    have h2 : tableChunksOfBlock shippedConfig tik n
        (chunks.length + ([] : List Chunk).length) b.tables =
        .error (.exception "AttributeError") := by
      unfold tableChunksOfBlock
      exact tableFold_attrerror tik n _ b.tables 0 [] htab
    rw [h2]
    rfl

theorem blockStep_ok_of_insignificant (tik : String → Except PyErr Encoding)
    (n : Nat) (chunks : List Chunk) (b : PageBlock)
    (hsb : ¬ significantBlock b) :
    blockStep shippedConfig tik chunks (n, b) = .ok (chunks ++ [] ++ []) ∨
      blockStep shippedConfig tik chunks (n, b) = .ok chunks := by
  unfold blockStep
  by_cases hbl : b.is_blank
  · right
    rw [if_pos hbl]
  · left
    rw [if_neg hbl]
    have hbl' : b.is_blank = false := by
      cases hb : b.is_blank
      · rfl
      · exact absurd hb hbl
    have htext : ¬ (b.text_content ≠ "" ∧ 50 < (pyStrip b.text_content).length) := by
      intro hcon
      exact hsb ⟨hbl', Or.inl hcon⟩
    have htab : ∀ t ∈ b.tables, ¬ 20 < (pyStrip t).length := by
      intro t ht hcon
      exact hsb ⟨hbl', Or.inr ⟨t, ht, hcon⟩⟩
    have h1 : textChunksOfBlock shippedConfig tik n chunks.length b = .ok [] := by
      unfold textChunksOfBlock
      rw [if_neg htext]
    rw [h1]
    show (do
      let bcs ← tableChunksOfBlock shippedConfig tik n
        (chunks.length + ([] : List Chunk).length) b.tables
      (Except.ok (chunks ++ [] ++ bcs) : Except PyErr (List Chunk))) = _
    have h2 : tableChunksOfBlock shippedConfig tik n
        (chunks.length + ([] : List Chunk).length) b.tables = .ok [] := by
      unfold tableChunksOfBlock
      exact tableFold_ok shippedConfig tik n _ b.tables 0 [] htab
    rw [h2]
    rfl

theorem extract_attrerror_go (tik : String → Except PyErr Encoding) :
    ∀ (blocks : List PageBlock) (n : Nat) (chunks : List Chunk),
      (∃ b ∈ blocks, significantBlock b) →
      (blocks.enumFrom n).foldlM (blockStep shippedConfig tik) chunks =
        .error (.exception "AttributeError") := by
  intro blocks
  induction blocks with
  | nil => intro n chunks h; simp at h
  | cons b bs ih =>
    intro n chunks h
    rw [show List.enumFrom n (b :: bs) = (n, b) :: List.enumFrom (n + 1) bs
      from rfl, List.foldlM_cons]
    by_cases hsb : significantBlock b
    · rw [blockStep_attrerror tik n chunks b hsb]
      rfl
    · have htail : ∃ x ∈ bs, significantBlock x := by
        rcases h with ⟨x, hx, hsx⟩
        rcases List.mem_cons.mp hx with rfl | h2
        · exact absurd hsx hsb
        · exact ⟨x, h2, hsx⟩
      rcases blockStep_ok_of_insignificant tik n chunks b hsb with h1 | h1 <;>
        rw [h1] <;>
        (show (List.enumFrom (n + 1) bs).foldlM (blockStep shippedConfig tik) _ = _) <;>
        exact ih (n + 1) _ htail

end ChunkerLemmas

/-- C7: with the shipped config — which defines none of
`DEFAULT_ENCODING`, `MAX_TOKENS`, `BATCH_SIZE` — extracting chunks from
any block list containing at least one significant text or table block
raises `AttributeError` before producing any chunk, and the async batching
loop raises `AttributeError` for every chunk count, so document ingestion
can never complete. -/
theorem missing_config_attributes_break_ingestion
    (tik : String → Except PyErr Encoding) (blocks : List PageBlock)
    (hsig : ∃ b ∈ blocks, significantBlock b) :
    extract_chunks_from_markdown shippedConfig tik blocks =
      .error (.exception "AttributeError")
    ∧ ∀ n, batchStarts shippedConfig n = .error (.exception "AttributeError") := by
  constructor
  · unfold extract_chunks_from_markdown
    exact extract_attrerror_go tik blocks 0 [] hsig
  · intro n
    rfl

/-- Witness for C7 at a concrete markdown block holding a 60-character
paragraph. -/
theorem missing_config_attributes_break_ingestion_witness :
    extract_chunks_from_markdown shippedConfig
        (fun _ => .error (.exception "unused"))
        [⟨false, String.mk (List.replicate 60 'a'), []⟩] =
      .error (.exception "AttributeError")
    ∧ batchStarts shippedConfig 12 = .error (.exception "AttributeError") :=
  ⟨(missing_config_attributes_break_ingestion
      (fun _ => .error (.exception "unused"))
      [⟨false, String.mk (List.replicate 60 'a'), []⟩]
      ⟨⟨false, String.mk (List.replicate 60 'a'), []⟩, by simp,
        by refine ⟨rfl, Or.inl ⟨by decide, by decide⟩⟩⟩).1,
   (missing_config_attributes_break_ingestion
      (fun _ => .error (.exception "unused"))
      [⟨false, String.mk (List.replicate 60 'a'), []⟩]
      ⟨⟨false, String.mk (List.replicate 60 'a'), []⟩, by simp,
        by refine ⟨rfl, Or.inl ⟨by decide, by decide⟩⟩⟩).2 12⟩

section ChunkerStructureLemmas

theorem exceptBind_ok_inv {α β : Type} (x : Except PyErr α)
    (f : α → Except PyErr β) (v : β) (h : (x >>= f) = .ok v) :
    ∃ a, x = .ok a ∧ f a = .ok v := by
  cases x with
  | error e => exact Except.noConfusion h
  | ok a => exact ⟨a, rfl, h⟩

theorem chunkIds_append (base : Nat) (l1 l2 : List Chunk)
    (h1 : ∀ i (hi : i < l1.length), (l1.get ⟨i, hi⟩).chunk_id = base + i)
    (h2 : ∀ i (hi : i < l2.length),
      (l2.get ⟨i, hi⟩).chunk_id = base + l1.length + i) :
    ∀ i (hi : i < (l1 ++ l2).length),
      ((l1 ++ l2).get ⟨i, hi⟩).chunk_id = base + i := by
  intro i hi
  rw [List.get_eq_getElem]
  by_cases hlt : i < l1.length
  · rw [List.getElem_append_left hlt]
    have := h1 i hlt
    rw [List.get_eq_getElem] at this
    exact this
  · have hge : l1.length ≤ i := Nat.le_of_not_lt hlt
    rw [List.getElem_append_right hge]
    have hi2 : i - l1.length < l2.length := by
      have := hi
      simp only [List.length_append] at this
      omega
    have := h2 (i - l1.length) hi2
    rw [List.get_eq_getElem] at this
    rw [this]
    omega

theorem pairwise_page_const (l : List Chunk) (p : Nat)
    (h : ∀ c ∈ l, c.page = p) :
    List.Pairwise (fun c1 c2 => c1.page ≤ c2.page) l := by
  apply List.pairwise_of_forall_mem_list
  intro a ha b hb
  rw [h a ha, h b hb]

theorem textChunksOfBlock_ok (cfg : PyConfig)
    (tik : String → Except PyErr Encoding) (n startId : Nat) (b : PageBlock)
    (tcs : List Chunk) (h : textChunksOfBlock cfg tik n startId b = .ok tcs) :
    (∀ c ∈ tcs, c.page = (n + 1) / 2 ∧ c.length = c.content.length ∧
      c.type = "text")
    ∧ (∀ j (hj : j < tcs.length), (tcs.get ⟨j, hj⟩).chunk_id = startId + j) := by
  unfold textChunksOfBlock at h
  by_cases hguard : b.text_content ≠ "" ∧ 50 < (pyStrip b.text_content).length
  · rw [if_pos hguard] at h
    obtain ⟨mt, hmt, h2⟩ := exceptBind_ok_inv _ _ _ h
    obtain ⟨subs, hsubs, h3⟩ := exceptBind_ok_inv _ _ _ h2
    have htcs : tcs = subs.enum.map (fun p =>
        ({ chunk_id := startId + p.1, page := (n + 1) / 2, type := "text",
           table_index := none, content := p.2,
           length := p.2.length } : Chunk)) := (Except.ok.inj h3).symm
    subst htcs
    constructor
    · intro c hc
      obtain ⟨p, hp, hpc⟩ := List.mem_map.mp hc
      rw [← hpc]
      exact ⟨rfl, rfl, rfl⟩
    · intro j hj
      rw [List.get_eq_getElem]
      simp [List.getElem_map, List.getElem_enum]
  · rw [if_neg hguard] at h
    cases h
    exact ⟨by simp, by intro j hj; simp at hj⟩

theorem tableFold_ok_inv (cfg : PyConfig)
    (tik : String → Except PyErr Encoding) (pi startId : Nat) :
    ∀ (l : List (Nat × String)) (acc bcs : List Chunk),
      l.foldlM (tableStep cfg tik pi startId) acc = .ok bcs →
      (∀ c ∈ acc, c.page = (pi + 1) / 2 ∧ c.length = c.content.length ∧
        c.type = "table") →
      (∀ j (hj : j < acc.length), (acc.get ⟨j, hj⟩).chunk_id = startId + j) →
      (∀ c ∈ bcs, c.page = (pi + 1) / 2 ∧ c.length = c.content.length ∧
        c.type = "table")
      ∧ (∀ j (hj : j < bcs.length), (bcs.get ⟨j, hj⟩).chunk_id = startId + j) := by
  intro l
  induction l with
  | nil =>
    intro acc bcs h hpg hid
    cases h
    exact ⟨hpg, hid⟩
  | cons p ps ih =>
    intro acc bcs h hpg hid
    rw [List.foldlM_cons] at h
    obtain ⟨acc', hstep, hrest⟩ := exceptBind_ok_inv _ _ _ h
    unfold tableStep at hstep
    by_cases hsig : 20 < (pyStrip p.2).length
    · rw [if_pos hsig] at hstep
      obtain ⟨mt, hmt, h2⟩ := exceptBind_ok_inv _ _ _ hstep
      obtain ⟨subs, hsubs, h3⟩ := exceptBind_ok_inv _ _ _ h2
      have hacc' : acc' = acc ++ subs.enum.map (fun q =>
          ({ chunk_id := startId + acc.length + q.1, page := (pi + 1) / 2,
             type := "table", table_index := some (p.1 + 1), content := q.2,
             length := q.2.length } : Chunk)) := (Except.ok.inj h3).symm
      subst hacc'
      apply ih _ bcs hrest
      · intro c hc
        rcases List.mem_append.mp hc with h4 | h4
        · exact hpg c h4
        · obtain ⟨q, hq, hqc⟩ := List.mem_map.mp h4
          rw [← hqc]
          exact ⟨rfl, rfl, rfl⟩
      · apply chunkIds_append startId
        · exact hid
        · intro j hj
          rw [List.get_eq_getElem]
          simp [List.getElem_map, List.getElem_enum]
    · rw [if_neg hsig] at hstep
      cases hstep
      exact ih acc bcs hrest hpg hid

theorem blockStep_ok_inv (cfg : PyConfig)
    (tik : String → Except PyErr Encoding) (chunks : List Chunk) (n : Nat)
    (b : PageBlock) (chunks' : List Chunk)
    (h : blockStep cfg tik chunks (n, b) = .ok chunks') :
    ∃ newc : List Chunk, chunks' = chunks ++ newc ∧
      (∀ c ∈ newc, c.page = (n + 1) / 2) ∧
      (∀ j (hj : j < newc.length),
        (newc.get ⟨j, hj⟩).chunk_id = chunks.length + j) := by
  unfold blockStep at h
  by_cases hbl : b.is_blank
  · rw [if_pos hbl] at h
    cases h
    exact ⟨[], by simp, by simp, by intro j hj; simp at hj⟩
  · rw [if_neg hbl] at h
    obtain ⟨tcs, htcs, h2⟩ := exceptBind_ok_inv _ _ _ h
    obtain ⟨bcs, hbcs, h3⟩ := exceptBind_ok_inv _ _ _ h2
    have hch : chunks' = chunks ++ tcs ++ bcs := (Except.ok.inj h3).symm
    obtain ⟨hpg_t, hid_t⟩ := textChunksOfBlock_ok cfg tik n chunks.length b tcs htcs
    unfold tableChunksOfBlock at hbcs
    obtain ⟨hpg_b, hid_b⟩ := tableFold_ok_inv cfg tik n
      (chunks.length + tcs.length) b.tables.enum [] bcs hbcs (by simp)
      (by intro j hj; simp at hj)
    refine ⟨tcs ++ bcs, by rw [hch, List.append_assoc], ?_, ?_⟩
    · intro c hc
      rcases List.mem_append.mp hc with h4 | h4
      · exact (hpg_t c h4).1
      · exact (hpg_b c h4).1
    · exact chunkIds_append chunks.length tcs bcs hid_t hid_b

end ChunkerStructureLemmas

theorem extract_go_ids_pages (cfg : PyConfig)
    (tik : String → Except PyErr Encoding) :
    ∀ (blocks : List PageBlock) (n : Nat) (chunks cs : List Chunk),
      (blocks.enumFrom n).foldlM (blockStep cfg tik) chunks = .ok cs →
      (∀ i (hi : i < chunks.length), (chunks.get ⟨i, hi⟩).chunk_id = i) →
      List.Pairwise (fun c1 c2 => c1.page ≤ c2.page) chunks →
      (∀ c ∈ chunks, c.page ≤ (n + 1) / 2) →
      (∀ i (hi : i < cs.length), (cs.get ⟨i, hi⟩).chunk_id = i)
      ∧ List.Pairwise (fun c1 c2 => c1.page ≤ c2.page) cs
      ∧ ∃ perBlock : List (List Chunk),
          cs = chunks ++ perBlock.flatten ∧ perBlock.length = blocks.length ∧
          ∀ k (hk : k < perBlock.length), ∀ c ∈ perBlock.get ⟨k, hk⟩,
            c.page = (n + k + 1) / 2 := by
  intro blocks
  induction blocks with
  | nil =>
    intro n chunks cs h hid hpw hbd
    cases h
    refine ⟨hid, hpw, [], by simp, by simp, ?_⟩
    intro k hk
    simp at hk
  | cons b bs ih =>
    intro n chunks cs h hid hpw hbd
    rw [show List.enumFrom n (b :: bs) = (n, b) :: List.enumFrom (n + 1) bs
      from rfl, List.foldlM_cons] at h
    obtain ⟨chunks', hstep, hrest⟩ := exceptBind_ok_inv _ _ _ h
    obtain ⟨newc, hnew, hnpg, hnid⟩ := blockStep_ok_inv cfg tik chunks n b
      chunks' hstep
    subst hnew
    have hid' : ∀ i (hi : i < (chunks ++ newc).length),
        ((chunks ++ newc).get ⟨i, hi⟩).chunk_id = i := by
      intro i hi
      have := chunkIds_append 0 chunks newc
        (fun j hj => by rw [Nat.zero_add]; exact hid j hj)
        (fun j hj => by rw [Nat.zero_add]; exact hnid j hj) i hi
      rw [this, Nat.zero_add]
    have hpw' : List.Pairwise (fun c1 c2 => c1.page ≤ c2.page)
        (chunks ++ newc) := by
      rw [List.pairwise_append]
      refine ⟨hpw, pairwise_page_const newc ((n + 1) / 2) hnpg, ?_⟩
      intro a ha c hc
      rw [hnpg c hc]
      exact hbd a ha
    have hbd' : ∀ c ∈ chunks ++ newc, c.page ≤ (n + 1 + 1) / 2 := by
      intro c hc
      have hmono : (n + 1) / 2 ≤ (n + 1 + 1) / 2 :=
        Nat.div_le_div_right (by omega)
      rcases List.mem_append.mp hc with h4 | h4
      · exact Nat.le_trans (hbd c h4) hmono
      · rw [hnpg c h4]
        exact hmono
    obtain ⟨hidf, hpwf, perBlock', hflat, hlen, hpages⟩ :=
      ih (n + 1) (chunks ++ newc) cs hrest hid' hpw' hbd'
    refine ⟨hidf, hpwf, newc :: perBlock', ?_, by simp [hlen], ?_⟩
    · rw [hflat, List.flatten_cons, List.append_assoc]
    · intro k hk c hc
      cases k with
      | zero =>
        simp only [List.get_eq_getElem, List.getElem_cons_zero] at hc
        rw [hnpg c hc]
      | succ k2 =>
        simp only [List.get_eq_getElem, List.getElem_cons_succ] at hc
        have hk2 : k2 < perBlock'.length := by
          simp at hk
          omega
        have := hpages k2 hk2 c (by
          rw [List.get_eq_getElem]
          exact hc)
        rw [this]
        have harith : n + 1 + k2 + 1 = n + (k2 + 1) + 1 := by omega
        rw [harith]

/-- C9: whenever `extract_chunks_from_markdown` returns a chunk list, the
`chunk_id` values equal each chunk's list position (hence strictly
increasing across the whole document, never reset per page), every chunk
coming from the block at index `block_index` carries
`page = (block_index + 1) / 2`, and the page values are non-decreasing in
`chunk_id` order. -/
theorem extract_chunks_ids_and_pages (cfg : PyConfig)
    (tik : String → Except PyErr Encoding) (blocks : List PageBlock)
    (cs : List Chunk)
    (h : extract_chunks_from_markdown cfg tik blocks = .ok cs) :
    (∀ i (hi : i < cs.length), (cs.get ⟨i, hi⟩).chunk_id = i)
    ∧ List.Pairwise (fun c1 c2 => c1.page ≤ c2.page) cs
    ∧ ∃ perBlock : List (List Chunk),
        cs = perBlock.flatten ∧ perBlock.length = blocks.length ∧
        ∀ k (hk : k < perBlock.length), ∀ c ∈ perBlock.get ⟨k, hk⟩,
          c.page = (k + 1) / 2 := by
  unfold extract_chunks_from_markdown at h
  obtain ⟨hid, hpw, perBlock, hflat, hlen, hpages⟩ :=
    extract_go_ids_pages cfg tik blocks 0 [] cs h
      (by intro i hi; simp at hi) List.Pairwise.nil (by simp)
  refine ⟨hid, hpw, perBlock, by simpa using hflat, hlen, ?_⟩
  intro k hk c hc
  have := hpages k hk c hc
  rw [this]
  norm_num

/-- Witness for C9: a concrete two-block document extracted with a
single-character tokenizer. -/
theorem extract_chunks_ids_and_pages_witness :
    List.Pairwise (fun c1 c2 => c1.page ≤ c2.page)
      [({ chunk_id := 0, page := 0, type := "text", table_index := none,
          content := String.mk (List.replicate 60 'b'),
          length := 60 } : Chunk),
       ({ chunk_id := 1, page := 1, type := "text", table_index := none,
          content := String.mk (List.replicate 51 'c'),
          length := 51 } : Chunk)] :=
  ((extract_chunks_ids_and_pages
    ⟨some 2000, some "enc", some 100, some 5⟩
    (fun _ => .ok ⟨fun s => s.data.map Char.toNat,
      fun ts => String.mk (ts.map Char.ofNat)⟩)
    [⟨false, String.mk (List.replicate 60 'b'), []⟩,
     ⟨false, String.mk (List.replicate 51 'c'), []⟩]
    [({ chunk_id := 0, page := 0, type := "text", table_index := none,
        content := String.mk (List.replicate 60 'b'),
        length := 60 } : Chunk),
     ({ chunk_id := 1, page := 1, type := "text", table_index := none,
        content := String.mk (List.replicate 51 'c'),
        length := 51 } : Chunk)]
    (by rfl)).2).1

section ChunkLengthLemmas

theorem blockStep_mem_len (cfg : PyConfig)
    (tik : String → Except PyErr Encoding) (chunks : List Chunk) (n : Nat)
    (b : PageBlock) (chunks' : List Chunk)
    (h : blockStep cfg tik chunks (n, b) = .ok chunks') :
    ∀ c ∈ chunks', c ∈ chunks ∨ c.length = c.content.length := by
  unfold blockStep at h
  by_cases hbl : b.is_blank
  · rw [if_pos hbl] at h
    cases h
    exact fun c hc => Or.inl hc
  · rw [if_neg hbl] at h
    obtain ⟨tcs, htcs, h2⟩ := exceptBind_ok_inv _ _ _ h
    obtain ⟨bcs, hbcs, h3⟩ := exceptBind_ok_inv _ _ _ h2
    have hch : chunks' = chunks ++ tcs ++ bcs := (Except.ok.inj h3).symm
    subst hch
    obtain ⟨hpg_t, -⟩ := textChunksOfBlock_ok cfg tik n chunks.length b tcs htcs
    unfold tableChunksOfBlock at hbcs
    obtain ⟨hpg_b, -⟩ := tableFold_ok_inv cfg tik n
      (chunks.length + tcs.length) b.tables.enum [] bcs hbcs (by simp)
      (by intro j hj; simp at hj)
    intro c hc
    rcases List.mem_append.mp hc with h4 | h4
    · rcases List.mem_append.mp h4 with h5 | h5
      · exact Or.inl h5
      · exact Or.inr (hpg_t c h5).2.1
    · exact Or.inr (hpg_b c h4).2.1

theorem extract_go_mem_len (cfg : PyConfig)
    (tik : String → Except PyErr Encoding) :
    ∀ (blocks : List PageBlock) (n : Nat) (chunks cs : List Chunk),
      (blocks.enumFrom n).foldlM (blockStep cfg tik) chunks = .ok cs →
      (∀ c ∈ chunks, c.length = c.content.length) →
      ∀ c ∈ cs, c.length = c.content.length := by
  intro blocks
  induction blocks with
  | nil =>
    intro n chunks cs h hlen
    cases h
    exact hlen
  | cons b bs ih =>
    intro n chunks cs h hlen
    rw [show List.enumFrom n (b :: bs) = (n, b) :: List.enumFrom (n + 1) bs
      from rfl, List.foldlM_cons] at h
    obtain ⟨chunks', hstep, hrest⟩ := exceptBind_ok_inv _ _ _ h
    apply ih (n + 1) chunks' cs hrest
    intro c hc
    rcases blockStep_mem_len cfg tik chunks n b chunks' hstep c hc with h4 | h4
    · exact hlen c h4
    · exact h4

/-- Threshold property of one chunk: a text chunk above the 50-character
trimmed threshold, a table chunk above the 20-character one. -/
def chunkAboveThreshold (c : Chunk) : Prop :=
  (c.type = "text" → 50 < (pyStrip c.content).length)
  ∧ (c.type = "table" → 20 < (pyStrip c.content).length)

theorem split_fits_whole (cfg : PyConfig)
    (tik : String → Except PyErr Encoding) (text : String) (mt : Nat)
    (en : String) (enc : Encoding)
    (hde : cfg.DEFAULT_ENCODING = some en) (htik : tik en = .ok enc)
    (hfit : (enc.encode text).length ≤ mt) :
    split_text_by_tokens cfg tik text mt = .ok [text] := by
  unfold split_text_by_tokens
  rw [show pyGetattr cfg.DEFAULT_ENCODING = .ok en from by
    rw [hde]; rfl]
  show (tik en >>= _) = _
  rw [htik]
  show (if (enc.encode text).length ≤ mt then _ else _ : Except PyErr (List String)) = _
  rw [if_pos hfit]

theorem tableFold_mem_threshold (cfg : PyConfig)
    (tik : String → Except PyErr Encoding) (pi startId : Nat) (mt : Nat)
    (en : String) (enc : Encoding)
    (hmt : cfg.MAX_TOKENS = some mt) (hde : cfg.DEFAULT_ENCODING = some en)
    (htik : tik en = .ok enc) :
    ∀ (l : List (Nat × String)) (acc bcs : List Chunk),
      l.foldlM (tableStep cfg tik pi startId) acc = .ok bcs →
      (∀ p ∈ l, (enc.encode p.2).length ≤ mt) →
      (∀ c ∈ acc, chunkAboveThreshold c) →
      ∀ c ∈ bcs, chunkAboveThreshold c := by
  intro l
  induction l with
  | nil =>
    intro acc bcs h _ hacc
    cases h
    exact hacc
  | cons p ps ih =>
    intro acc bcs h hfit hacc
    rw [List.foldlM_cons] at h
    obtain ⟨acc', hstep, hrest⟩ := exceptBind_ok_inv _ _ _ h
    unfold tableStep at hstep
    by_cases hsig : 20 < (pyStrip p.2).length
    · rw [if_pos hsig] at hstep
      obtain ⟨mt', hmt', hs2⟩ := exceptBind_ok_inv _ _ _ hstep
      have hmteq : mt' = mt := by
        rw [show pyGetattr cfg.MAX_TOKENS = .ok mt from by rw [hmt]; rfl] at hmt'
        exact (Except.ok.inj hmt').symm
      subst hmteq
      obtain ⟨subs, hsubs, hs3⟩ := exceptBind_ok_inv _ _ _ hs2
      have hsubseq : subs = [p.2] := by
        rw [split_fits_whole cfg tik p.2 mt' en enc hde htik
          (hfit p (by simp))] at hsubs
        exact (Except.ok.inj hsubs).symm
      subst hsubseq
      have hacc' : acc' = acc ++ [({ chunk_id := startId + acc.length + 0,
                                     page := (pi + 1) / 2, type := "table",
                                     table_index := some (p.1 + 1),
                                     content := p.2,
                                     length := p.2.length } : Chunk)] :=
        (Except.ok.inj hs3).symm
      subst hacc'
      apply ih _ bcs hrest (fun x hx => hfit x (by simp [hx]))
      intro c hc
      rcases List.mem_append.mp hc with h4 | h4
      · exact hacc c h4
      · rw [List.mem_singleton.mp h4]
        exact ⟨by intro hcon; exact absurd hcon (by simp), fun _ => hsig⟩
    · rw [if_neg hsig] at hstep
      cases hstep
      exact ih acc bcs hrest (fun x hx => hfit x (by simp [hx])) hacc

theorem blockStep_mem_threshold (cfg : PyConfig)
    (tik : String → Except PyErr Encoding) (chunks : List Chunk) (n : Nat)
    (b : PageBlock) (chunks' : List Chunk) (mt : Nat) (en : String)
    (enc : Encoding) (hmt : cfg.MAX_TOKENS = some mt)
    (hde : cfg.DEFAULT_ENCODING = some en) (htik : tik en = .ok enc)
    (hfit_text : (enc.encode b.text_content).length ≤ mt)
    (hfit_tab : ∀ t ∈ b.tables, (enc.encode t).length ≤ mt)
    (h : blockStep cfg tik chunks (n, b) = .ok chunks') :
    ∀ c ∈ chunks', c ∈ chunks ∨ chunkAboveThreshold c := by
  unfold blockStep at h
  by_cases hbl : b.is_blank
  · rw [if_pos hbl] at h
    cases h
    exact fun c hc => Or.inl hc
  · rw [if_neg hbl] at h
    obtain ⟨tcs, htcs, h2⟩ := exceptBind_ok_inv _ _ _ h
    obtain ⟨bcs, hbcs, h3⟩ := exceptBind_ok_inv _ _ _ h2
    have hch : chunks' = chunks ++ tcs ++ bcs := (Except.ok.inj h3).symm
    subst hch
    have htcs_thr : ∀ c ∈ tcs, chunkAboveThreshold c := by
      unfold textChunksOfBlock at htcs
      by_cases hguard : b.text_content ≠ "" ∧
          50 < (pyStrip b.text_content).length
      · rw [if_pos hguard] at htcs
        obtain ⟨mt', hmt', ht2⟩ := exceptBind_ok_inv _ _ _ htcs
        have hmteq : mt' = mt := by
          rw [show pyGetattr cfg.MAX_TOKENS = .ok mt from by rw [hmt]; rfl] at hmt'
          exact (Except.ok.inj hmt').symm
        subst hmteq
        obtain ⟨subs, hsubs, ht3⟩ := exceptBind_ok_inv _ _ _ ht2
        have hsubseq : subs = [b.text_content] := by
          rw [split_fits_whole cfg tik b.text_content mt' en enc hde htik
            hfit_text] at hsubs
          exact (Except.ok.inj hsubs).symm
        subst hsubseq
        have htcseq : tcs = [({ chunk_id := chunks.length + 0,
                                page := (n + 1) / 2, type := "text",
                                table_index := none,
                                content := b.text_content,
                                length := b.text_content.length } : Chunk)] :=
          (Except.ok.inj ht3).symm
        subst htcseq
        intro c hc
        rw [List.mem_singleton.mp hc]
        exact ⟨fun _ => hguard.2, by intro hcon; exact absurd hcon (by simp)⟩
      · rw [if_neg hguard] at htcs
        cases htcs
        intro c hc
        simp at hc
    have hbcs_thr : ∀ c ∈ bcs, chunkAboveThreshold c := by
      unfold tableChunksOfBlock at hbcs
      apply tableFold_mem_threshold cfg tik n (chunks.length + tcs.length)
        mt en enc hmt hde htik b.tables.enum [] bcs hbcs
      · intro p hp
        exact hfit_tab p.2 (List.snd_mem_of_mem_enumFrom hp)
      · intro c hc
        simp at hc
    intro c hc
    rcases List.mem_append.mp hc with h4 | h4
    · rcases List.mem_append.mp h4 with h5 | h5
      · exact Or.inl h5
      · exact Or.inr (htcs_thr c h5)
    · exact Or.inr (hbcs_thr c h4)

end ChunkLengthLemmas

theorem extract_go_mem_threshold (cfg : PyConfig)
    (tik : String → Except PyErr Encoding) (mt : Nat) (en : String)
    (enc : Encoding) (hmt : cfg.MAX_TOKENS = some mt)
    (hde : cfg.DEFAULT_ENCODING = some en) (htik : tik en = .ok enc) :
    ∀ (blocks : List PageBlock) (n : Nat) (chunks cs : List Chunk),
      (blocks.enumFrom n).foldlM (blockStep cfg tik) chunks = .ok cs →
      (∀ b ∈ blocks, (enc.encode b.text_content).length ≤ mt ∧
        ∀ t ∈ b.tables, (enc.encode t).length ≤ mt) →
      (∀ c ∈ chunks, chunkAboveThreshold c) →
      ∀ c ∈ cs, chunkAboveThreshold c := by
  intro blocks
  induction blocks with
  | nil =>
    intro n chunks cs h _ hacc
    cases h
    exact hacc
  | cons b bs ih =>
    intro n chunks cs h hfits hacc
    rw [show List.enumFrom n (b :: bs) = (n, b) :: List.enumFrom (n + 1) bs
      from rfl, List.foldlM_cons] at h
    obtain ⟨chunks', hstep, hrest⟩ := exceptBind_ok_inv _ _ _ h
    apply ih (n + 1) chunks' cs hrest
      (fun x hx => hfits x (by simp [hx]))
    intro c hc
    rcases blockStep_mem_threshold cfg tik chunks n b chunks' mt en enc hmt
      hde htik (hfits b (by simp)).1 (hfits b (by simp)).2 hstep c hc with
      h4 | h4
    · exact hacc c h4
    · exact h4

/-- C10 counterexample: a 60-character text block passes the block-level
50-character significance test but, with a token budget of 10, is split
into sub-chunks whose trimmed content length is 10 — chunks below the
claimed per-chunk threshold are emitted, not discarded. -/
theorem subchunks_fall_below_threshold :
    extract_chunks_from_markdown ⟨some 2000, some "enc", some 10, some 5⟩
        (fun _ => .ok ⟨fun s => s.data.map Char.toNat,
          fun ts => String.mk (ts.map Char.ofNat)⟩)
        [⟨false, String.mk (List.replicate 60 'a'), []⟩] =
      .ok [({ chunk_id := 0, page := 0, type := "text", table_index := none,
              content := String.mk (List.replicate 10 'a'),
              length := 10 } : Chunk),
           ({ chunk_id := 1, page := 0, type := "text", table_index := none,
              content := String.mk (List.replicate 10 'a'),
              length := 10 } : Chunk),
           ({ chunk_id := 2, page := 0, type := "text", table_index := none,
              content := String.mk (List.replicate 10 'a'),
              length := 10 } : Chunk),
           ({ chunk_id := 3, page := 0, type := "text", table_index := none,
              content := String.mk (List.replicate 10 'a'),
              length := 10 } : Chunk),
           ({ chunk_id := 4, page := 0, type := "text", table_index := none,
              content := String.mk (List.replicate 10 'a'),
              length := 10 } : Chunk),
           ({ chunk_id := 5, page := 0, type := "text", table_index := none,
              content := String.mk (List.replicate 10 'a'),
              length := 10 } : Chunk)]
    ∧ ¬ 50 < (pyStrip (String.mk (List.replicate 10 'a'))).length :=
  ⟨rfl, by decide⟩

/-- C10 amended: every chunk emitted by `extract_chunks_from_markdown`
satisfies `length = len(content)`.  The minimum-significance thresholds
(more than 50 trimmed characters for text, more than 20 for tables) are
enforced on the source block before token-splitting: when every block fits
the token budget, each emitted chunk itself exceeds its threshold and has
non-empty content; but a block over the budget is split into sub-chunks
that may fall below the threshold. -/
theorem chunk_length_and_block_threshold (cfg : PyConfig)
    (tik : String → Except PyErr Encoding) (blocks : List PageBlock)
    (cs : List Chunk)
    (h : extract_chunks_from_markdown cfg tik blocks = .ok cs) :
    (∀ c ∈ cs, c.length = c.content.length)
    ∧ (∀ mt en enc, cfg.MAX_TOKENS = some mt →
        cfg.DEFAULT_ENCODING = some en → tik en = .ok enc →
        (∀ b ∈ blocks, (enc.encode b.text_content).length ≤ mt ∧
          ∀ t ∈ b.tables, (enc.encode t).length ≤ mt) →
        ∀ c ∈ cs,
          (c.type = "text" →
            50 < (pyStrip c.content).length ∧ c.content ≠ "")
          ∧ (c.type = "table" →
            20 < (pyStrip c.content).length ∧ c.content ≠ "")) := by
  unfold extract_chunks_from_markdown at h
  constructor
  · exact extract_go_mem_len cfg tik blocks 0 [] cs h (by simp)
  · intro mt en enc hmt hde htik hfits c hc
    have hthr := extract_go_mem_threshold cfg tik mt en enc hmt hde htik
      blocks 0 [] cs h hfits (by simp) c hc
    have hne : ∀ s : String, 0 < (pyStrip s).length → s ≠ "" := by
      intro s hs hcon
      rw [hcon] at hs
      exact absurd hs (by decide)
    exact ⟨fun ht => ⟨hthr.1 ht, hne c.content (by have := hthr.1 ht; omega)⟩,
      fun ht => ⟨hthr.2 ht, hne c.content (by have := hthr.2 ht; omega)⟩⟩

/-- Witness for the amended C10 claim at a concrete in-budget block. -/
theorem chunk_length_and_block_threshold_witness :
    (({ chunk_id := 0, page := 0, type := "text", table_index := none,
        content := String.mk (List.replicate 60 'a'),
        length := 60 } : Chunk).length =
      ({ chunk_id := 0, page := 0, type := "text", table_index := none,
         content := String.mk (List.replicate 60 'a'),
         length := 60 } : Chunk).content.length)
    ∧ 50 < (pyStrip ({ chunk_id := 0, page := 0, type := "text",
                       table_index := none,
                       content := String.mk (List.replicate 60 'a'),
                       length := 60 } : Chunk).content).length :=
  ⟨(chunk_length_and_block_threshold ⟨some 2000, some "enc", some 100, some 5⟩
      (fun _ => .ok ⟨fun s => s.data.map Char.toNat,
        fun ts => String.mk (ts.map Char.ofNat)⟩)
      [⟨false, String.mk (List.replicate 60 'a'), []⟩]
      [({ chunk_id := 0, page := 0, type := "text", table_index := none,
          content := String.mk (List.replicate 60 'a'),
          length := 60 } : Chunk)] rfl).1 _ (by simp),
   ((chunk_length_and_block_threshold ⟨some 2000, some "enc", some 100, some 5⟩
      (fun _ => .ok ⟨fun s => s.data.map Char.toNat,
        fun ts => String.mk (ts.map Char.ofNat)⟩)
      [⟨false, String.mk (List.replicate 60 'a'), []⟩]
      [({ chunk_id := 0, page := 0, type := "text", table_index := none,
          content := String.mk (List.replicate 60 'a'),
          length := 60 } : Chunk)] rfl).2 100 "enc"
      ⟨fun s => s.data.map Char.toNat, fun ts => String.mk (ts.map Char.ofNat)⟩
      rfl rfl rfl (by
        intro b hb
        rw [List.mem_singleton.mp hb]
        exact ⟨by decide, by intro t ht; simp at ht⟩) _ (by simp) |>.1 rfl).1⟩
